import Mathlib

/-!
# SimpleHttpServer: a shallow embedding of `main.go`

The program is one Go file: a route table (`TCPHandler`), an accept loop
(`ServeTCP`) and the per-connection pipeline (`handleConnection`), which reads a
request line, a header block and an optional body from a `bufio.Reader` wrapped
around the connection, and then dispatches on the path.

Go strings are byte sequences, so a string is a list of bytes here (`Str`), and a
byte is a natural number (real inputs only hold values below 256).  The Go library
functions that `handleConnection` calls (`strings.Fields`, `strings.SplitN`,
`strings.TrimSpace`, `fmt.Sscanf` with `%d`, `bufio.Reader.ReadString` and
`bufio.Reader.Read`, `make`) are embedded from their Go implementation, each in
a section of its own.

The calls of `fmt.Println` (lines 63, 70, 97, 104-108) only print to the standard
output and are left out; the values they print are kept in the result of a run.
-/

namespace SimpleHttpServer

/-! ## Bytes and strings -/

/-- One byte of a Go string or of the connection's stream. -/
abbrev Byte := Nat

/-- Go `string` and `[]byte`: a sequence of bytes. -/
abbrev Str := List Byte

/-- The UTF-8 bytes of a string literal, as the Go compiler stores it. -/
def bytes (s : String) : Str := s.toUTF8.data.toList.map UInt8.toNat

/-- The line feed, the delimiter given to `ReadString`. -/
def LF : Byte := 10

/-- The colon, the separator given to `SplitN`. -/
def colon : Byte := 58

/-- The literal `"\r\n"` of line 79. -/
def CRLF : Str := [13, 10]

/-! ## White space (`unicode.IsSpace` on UTF-8 bytes)

`strings.Fields` and `strings.TrimSpace` walk the string rune by rune and test
`unicode.IsSpace`: U+0009..U+000D, U+0020, U+0085, U+00A0, U+1680,
U+2000..U+200A, U+2028, U+2029, U+202F, U+205F, U+3000.  Go decodes a white-space
rune at a position exactly when the bytes there are its (shortest) UTF-8
encoding; any other byte sequence, valid or not, decodes to runes that are not
white space and whose continuation bytes (0x80..0xBF) start no encoding below.
So the byte-level tests below decide the same positions as the rune loop.
-/

/-- One-byte white space: tab, line feed, vertical tab, form feed, carriage
return, space (the table `asciiSpace` of package `strings`). -/
def asciiSpace (a : Byte) : Bool :=
  a = 9 ∨ a = 10 ∨ a = 11 ∨ a = 12 ∨ a = 13 ∨ a = 32

/-- Two-byte white space: U+0085 (C2 85) and U+00A0 (C2 A0). -/
def space2 (a b : Byte) : Bool :=
  a = 0xC2 ∧ (b = 0x85 ∨ b = 0xA0)

/-- Three-byte white space: U+1680 (E1 9A 80), U+2000..U+200A (E2 80 80..8A),
U+2028, U+2029 (E2 80 A8, A9), U+202F (E2 80 AF), U+205F (E2 81 9F),
U+3000 (E3 80 80). -/
def space3 (a b c : Byte) : Bool :=
  (a = 0xE1 ∧ b = 0x9A ∧ c = 0x80) ∨
  (a = 0xE2 ∧ b = 0x80 ∧ ((0x80 ≤ c ∧ c ≤ 0x8A) ∨ c = 0xA8 ∨ c = 0xA9 ∨ c = 0xAF)) ∨
  (a = 0xE2 ∧ b = 0x81 ∧ c = 0x9F) ∨
  (a = 0xE3 ∧ b = 0x80 ∧ c = 0x80)

/-- Width in bytes of the white-space rune encoded at the head of `s`, 0 when
the rune there is not white space (or `s` is empty). -/
def spaceWidth : Str → Nat
  | [] => 0
  | a :: t =>
    if asciiSpace a then 1
    else match t with
      | [] => 0
      | b :: t2 =>
        if space2 a b then 2
        else match t2 with
          | [] => 0
          | c :: _ => if space3 a b c then 3 else 0

/-- Width in bytes of the white-space rune that ends at the head of the
reversed string `s` (its bytes come last byte first), 0 when there is none. -/
def spaceWidthRev : Str → Nat
  | [] => 0
  | a :: t =>
    if asciiSpace a then 1
    else match t with
      | [] => 0
      | b :: t2 =>
        if space2 b a then 2
        else match t2 with
          | [] => 0
          | c :: _ => if space3 c b a then 3 else 0

/-! ## `strings.TrimSpace` -/

/-- The loop of `strings.TrimLeftFunc(s, unicode.IsSpace)`: drop white-space
runes from the front; `skip` counts the bytes still to drop of the rune being
dropped. -/
def trimLeftFrom : Nat → Str → Str
  | _, [] => []
  | skip + 1, _ :: t => trimLeftFrom skip t
  | 0, a :: t =>
    match spaceWidth (a :: t) with
    | 0 => a :: t
    | w + 1 => trimLeftFrom w t

/-- The loop of `strings.TrimRightFunc(s, unicode.IsSpace)`, run on the reversed
string. -/
def trimRightFrom : Nat → Str → Str
  | _, [] => []
  | skip + 1, _ :: t => trimRightFrom skip t
  | 0, a :: t =>
    match spaceWidthRev (a :: t) with
    | 0 => a :: t
    | w + 1 => trimRightFrom w t

/-- The function `strings.TrimLeftFunc(s, unicode.IsSpace)`. -/
def trimLeft (s : Str) : Str := trimLeftFrom 0 s

/-- The function `strings.TrimRightFunc(s, unicode.IsSpace)`. -/
def trimRight (s : Str) : Str := (trimRightFrom 0 s.reverse).reverse

/-- The function `strings.TrimSpace`: all leading and trailing white space
removed. -/
def TrimSpace (s : Str) : Str := trimRight (trimLeft s)

/-! ## `strings.Fields` -/

/-- The fields closed by the field in progress, if there is one. -/
def flush : Option Str → List Str
  | none => []
  | some f => [f]

/-- The field in progress extended by one byte. -/
def push (cur : Option Str) (a : Byte) : Option Str := some (cur.getD [] ++ [a])

/-- The scan of `strings.FieldsFunc(s, unicode.IsSpace)`: a white-space rune
closes the field in progress, any other byte extends it (or starts one);
`skip` counts the bytes still to pass of the white-space rune being passed. -/
def fieldsFrom : Nat → Option Str → Str → List Str
  | _, cur, [] => flush cur
  | skip + 1, cur, _ :: t => fieldsFrom skip cur t
  | 0, cur, a :: t =>
    match spaceWidth (a :: t) with
    | 0 => fieldsFrom 0 (push cur a) t
    | w + 1 => flush cur ++ fieldsFrom w none t

/-- The function `strings.Fields`: the maximal runs of non-white-space bytes of
`s`, in order. -/
def Fields (s : Str) : List Str := fieldsFrom 0 none s

/-! ## `strings.SplitN(line, ":", 2)` -/

/-- The function `strings.SplitN(s, sep, 2)` for a one-byte `sep`: with a `sep` in
`s`, the text before the first one and all the text after it; else `s` alone. -/
def SplitN2 (s : Str) (sep : Byte) : List Str :=
  if sep ∈ s then [s.takeWhile (fun a => a ≠ sep), (s.dropWhile (fun a => a ≠ sep)).tail]
  else [s]

/-! ## `fmt.Sscanf(s, "%d", &n)`

The scanner reads at most `hugeWid` runes.  For the verb `%d` it skips leading
white space (a line feed there is an error), takes one optional sign and then
the longest run of decimal digits, which must not be empty, and converts the
token with `strconv.ParseInt(tok, 10, 64)`, an error when the value does not fit
in 64 bits.  Input after the digits is not looked at.  On an error nothing is
stored.
-/

/-- The scanner's rune limit `hugeWid = 1 << 30` of package `fmt`. -/
def hugeWid : Nat := 2 ^ 30

/-- One of the `decimalDigits` `0123456789`. -/
def isDigit (a : Byte) : Bool := 48 ≤ a ∧ a ≤ 57

/-- The number written by a run of decimal digits. -/
def digitsVal (ds : Str) : Nat := ds.foldl (fun n d => 10 * n + (d - 48)) 0

/-- The method `(*ss).SkipSpace` with `nlIsSpace = false`: pass white-space
runes, `n` counting the runes read; `none` is the error `unexpected newline`. -/
def SkipSpace : Nat → Nat → Str → Option (Nat × Str)
  | _, n, [] => some (n, [])
  | skip + 1, n, _ :: t => SkipSpace skip n t
  | 0, n, a :: t =>
    if hugeWid ≤ n then some (n, a :: t)
    else if a = 10 then none
    else match spaceWidth (a :: t) with
      | 0 => some (n, a :: t)
      | w + 1 => SkipSpace w (n + 1) t

/-- The text after one optional sign (`+` is 43, `-` is 45), and whether the
sign was `-`. -/
def acceptSign : Str → Bool × Str
  | [] => (false, [])
  | a :: t => if a = 45 then (true, t) else if a = 43 then (false, t) else (false, a :: t)

/-- The call `fmt.Sscanf(s, "%d", &n)` with `n` an `int` of 64 bits: the value
stored in `n`, or `none` when the scan fails and `n` keeps its value. -/
def Sscanf (s : Str) : Option Int :=
  match SkipSpace 0 0 s with
  | none => none
  | some (n, rest) =>
    let (neg, num) := acceptSign (rest.take (hugeWid - n))
    let ds := num.takeWhile isDigit
    if ds = [] then none
    else
      let v : Int := if neg then - (digitsVal ds : Int) else (digitsVal ds : Int)
      if - (2 : Int) ^ 63 ≤ v ∧ v < (2 : Int) ^ 63 then some v else none

/-! ## `make([]byte, n)` -/

/-- The largest allocation the Go runtime accepts on a 64-bit platform
(`maxAlloc`, 48 address bits). -/
def maxAlloc : Nat := 2 ^ 48

/-- The call `make([]byte, n)`: `n` zero bytes, or `none` for the run-time panic
`makeslice: len out of range` (negative `n`, or more than `maxAlloc`).  Memory
below that limit is taken to be available. -/
def make (n : Int) : Option Str :=
  if n < 0 ∨ (maxAlloc : Int) < n then none else some (List.replicate n.toNat 0)

/-! ## The connection (`net.Conn`)

The inbound side is the list of data segments in the order the connection's
`Read` delivers them, followed by the error it returns ever after (`io.EOF` when
the peer has closed).  A segment larger than the caller's buffer is delivered in
pieces.  The outbound side is the bytes passed to `Write`.  A stream that
blocks for ever is not modelled: every `Read` returns.
-/

/-- The errors a read can return. -/
inductive Error where
  | EOF
  | ErrNoProgress
  | other (code : Nat)
  deriving DecidableEq

/-- The state of a `net.Conn`. -/
structure Conn where
  /-- inbound segments not yet read -/
  chunks : List Str
  /-- the error of `Read` once `chunks` is used up -/
  fail : Error
  /-- the bytes passed to `Write`, in order -/
  written : Str
  /-- the number of calls of `Close` -/
  closed : Nat
  deriving DecidableEq

/-- The call `conn.Read(p)` with `len(p) = k`: the data copied into `p`, the
error, and the connection afterwards. -/
def Conn.Read (c : Conn) (k : Nat) : Str × Option Error × Conn :=
  if k = 0 then ([], none, c)
  else match c.chunks with
    | [] => ([], some c.fail, c)
    | d :: ds =>
      if d.length ≤ k then (d, none, { c with chunks := ds })
      else (d.take k, none, { c with chunks := d.drop k :: ds })

/-- The call `conn.Write(p)`. -/
def Conn.Write (c : Conn) (p : Str) : Conn := { c with written := c.written ++ p }

/-- The call `conn.Close()`. -/
def Conn.Close (c : Conn) : Conn := { c with closed := c.closed + 1 }

/-! ## `bufio.Reader` -/

/-- The buffer size `defaultBufSize` of `bufio.NewReader`. -/
def bufSize : Nat := 4096

/-- The state of a `bufio.Reader`. -/
structure Reader where
  /-- the unread bytes `b.buf[b.r:b.w]` -/
  buf : Str
  /-- the pending error `b.err` -/
  err : Option Error
  /-- the underlying connection `b.rd` -/
  rd : Conn
  deriving DecidableEq

/-- The call `bufio.NewReader(conn)`. -/
def NewReader (conn : Conn) : Reader := { buf := [], err := none, rd := conn }

/-- The loop of `(*Reader).fill`: up to `i` reads of the connection into the
free part of the buffer, until one brings data or an error; after `i` empty
reads the pending error is `io.ErrNoProgress`. -/
def fillLoop : Nat → Reader → Reader
  | 0, b => { b with err := some Error.ErrNoProgress }
  | i + 1, b =>
    match b.rd.Read (bufSize - b.buf.length) with
    | (d, some e, c) => { buf := b.buf ++ d, err := some e, rd := c }
    | (d, none, c) =>
      if 0 < d.length then { buf := b.buf ++ d, err := b.err, rd := c }
      else fillLoop i { buf := b.buf ++ d, err := b.err, rd := c }

/-- The method `(*Reader).fill`, with `maxConsecutiveEmptyReads = 100`. -/
def fill (b : Reader) : Reader := fillLoop 100 b

/-- The text up to and including the first `delim`, and the text after it; `none`
when `delim` does not occur (`bytes.IndexByte`). -/
def splitAfter (delim : Byte) : Str → Option (Str × Str)
  | [] => none
  | a :: t =>
    if a = delim then some ([a], t)
    else match splitAfter delim t with
      | none => none
      | some (l, r) => some (a :: l, r)

/-- The loop of `(*Reader).ReadString` (`collectFragments` around `ReadSlice`),
`acc` being the full buffers collected so far: return at a delimiter in the
buffer, else at a pending error (which is cleared), else empty a full buffer
into `acc`, else `fill`. -/
def readStringLoop (delim : Byte) : Nat → Str → Reader → Str × Option Error × Reader
  | 0, acc, b => (acc ++ b.buf, some Error.ErrNoProgress, { b with buf := [], err := none })
  | fuel + 1, acc, b =>
    match splitAfter delim b.buf with
    | some (line, rest) => (acc ++ line, none, { b with buf := rest })
    | none =>
      match b.err with
      | some e => (acc ++ b.buf, some e, { b with buf := [], err := none })
      | none =>
        if bufSize ≤ b.buf.length then readStringLoop delim fuel (acc ++ b.buf) { b with buf := [] }
        else readStringLoop delim fuel acc (fill b)

/-- The size of the inbound side of a connection: bytes and segments. -/
def Conn.pending (c : Conn) : Nat := (c.chunks.map fun d => d.length + 1).sum

/-- A bound on the number of turns of `readStringLoop` from state `b`. -/
def Reader.turns (b : Reader) : Nat :=
  2 * (b.rd.pending + (if b.err = none then 1 else 0)) + (if bufSize ≤ b.buf.length then 1 else 0) + 1

/-- The method `(*Reader).ReadString(delim)`: the data up to and including the
delimiter, or the data read before an error and that error. -/
def Reader.ReadString (b : Reader) (delim : Byte) : Str × Option Error × Reader :=
  readStringLoop delim b.turns [] b

/-- The method `(*Reader).Read(p)` with `len(p) = n`: the bytes copied into the
front of `p`, the error, and the reader afterwards.  Buffered bytes are handed
out first; with an empty buffer there is one read of the connection, directly
into `p` when `p` is at least as large as the buffer. -/
def Reader.Read (b : Reader) (n : Nat) : Str × Option Error × Reader :=
  if n = 0 then
    if 0 < b.buf.length then ([], none, b) else ([], b.err, { b with err := none })
  else if b.buf = [] then
    match b.err with
    | some e => ([], some e, { b with err := none })
    | none =>
      if bufSize ≤ n then
        match b.rd.Read n with
        | (d, e, c) => (d, e, { buf := [], err := none, rd := c })
      else
        match b.rd.Read bufSize with
        | (d, e, c) =>
          if d.length = 0 then ([], e, { buf := [], err := none, rd := c })
          else (d.take n, none, { buf := d.drop n, err := e, rd := c })
  else (b.buf.take n, none, { b with buf := b.buf.drop n })

/-! ## The header map (`map[string]string`) -/

/-- A Go `map[string]string`: a list of entries with distinct keys. -/
abbrev Headers := List (Str × Str)

/-- The lookup `v, ok := m[k]`. -/
def mapGet : Headers → Str → Option Str
  | [], _ => none
  | (k1, v) :: t, k => if k1 = k then some v else mapGet t k

/-- The assignment `m[k] = v`: the entry of `k`, if there is one, is replaced. -/
def mapSet (m : Headers) (k v : Str) : Headers :=
  m.filter (fun e => e.1 ≠ k) ++ [(k, v)]

/-! ## `main.go` -/

/-- The type `HandlerFunc func(net.Conn)` (line 11): what the callback does to the
connection it is given.  A callback is taken to return. -/
abbrev HandlerFunc := Conn → Conn

/-- The struct `Route` (lines 14-17). -/
structure Route where
  Pattern : Str
  Handler : HandlerFunc

/-- The struct `TCPHandler` (lines 20-22). -/
structure TCPHandler where
  routes : List Route

/-- The function `NewTCPHandler` (lines 25-27). -/
def NewTCPHandler : TCPHandler := { routes := [] }

/-- The method `HandleFunc` (lines 30-32). -/
def TCPHandler.HandleFunc (h : TCPHandler) (pattern : Str) (handler : HandlerFunc) : TCPHandler :=
  { routes := h.routes ++ [{ Pattern := pattern, Handler := handler }] }

/-- What `handleConnection` does to the reader and to the connection, in order,
with the values returned to it. -/
inductive Event where
  /-- the call `reader.ReadString('\n')` returned `(line, err)` -/
  | readString (line : Str) (err : Option Error)
  /-- the call `reader.Read(p)` with `len(p) = len` returned `len(data)` bytes, copied
  into `p`, and `err` -/
  | read (len : Nat) (data : Str) (err : Option Error)
  /-- the call `route.Handler(conn)` for the route at index `i` -/
  | call (i : Nat)
  /-- the call `conn.Write(p)` -/
  | write (p : Str)
  /-- the deferred `conn.Close()` -/
  | close
  deriving DecidableEq

/-- The local variables printed at lines 104-108. -/
structure Request where
  method : Str
  path : Str
  headers : Headers
  body : Str
  deriving DecidableEq

/-- The line of one header, lines 82-85: with a colon in it, the trimmed text
before the first colon is set to the trimmed text after it. -/
def addHeader (headers : Headers) (line : Str) : Headers :=
  match SplitN2 line colon with
  | [k, v] => mapSet headers (TrimSpace k) (TrimSpace v)
  | _ => headers

/-- The header loop, lines 77-86: read lines until a read error or the line
`"\r\n"`.  Returns the reader, the map and the reads made. -/
def headerLoop : Nat → Reader → Headers → Reader × Headers × List Event
  | 0, b, headers => (b, headers, [])
  | fuel + 1, b, headers =>
    match b.ReadString LF with
    | (line, err, b1) =>
      if err ≠ none ∨ line = CRLF then (b1, headers, [Event.readString line err])
      else
        match headerLoop fuel b1 (addHeader headers line) with
        | (b2, headers2, tr) => (b2, headers2, Event.readString line err :: tr)

/-- The bytes the reader has still to hand out: its buffer, then the
connection's segments. -/
def Reader.remaining (b : Reader) : Str := b.buf ++ b.rd.chunks.flatten

/-- The headers, lines 76-86.  Every turn of the loop but the last takes a line
of at least one byte from `remaining`, which bounds the turns. -/
def readHeaders (b : Reader) : Reader × Headers × List Event :=
  headerLoop (b.remaining.length + 1) b []

/-- How the parsing part of `handleConnection` ends. -/
inductive Parse where
  /-- line 64: the request line could not be read -/
  | readError (e : Error)
  /-- line 71: the request line has not three fields -/
  | malformed (requestLine : Str)
  /-- line 94: `make` panics -/
  | allocPanic (contentLength : Int)
  /-- line 98: the body could not be read -/
  | bodyError (e : Error)
  /-- line 103 is reached -/
  | ok (req : Request)
  deriving DecidableEq

/-- The header name of line 90. -/
def contentLengthKey : Str := bytes "Content-Length"

/-- The body length, lines 90-93: with a `Content-Length` entry, the value that
`Sscanf` stores in `contentLength`, which stays 0 when the scan fails; `none`
without the entry. -/
def contentLength (headers : Headers) : Option Int :=
  match mapGet headers contentLengthKey with
  | none => none
  | some contentLengthStr => some ((Sscanf contentLengthStr).getD 0)

/-- The body, lines 89-101, for the request line's `method` and `path`: one `Read`
into a fresh buffer of `contentLength` bytes, and the whole buffer is the body. -/
def readBody (method path : Str) (headers : Headers) (reader : Reader) :
    Parse × Reader × List Event :=
  match contentLength headers with
  | none => (Parse.ok { method := method, path := path, headers := headers, body := [] }, reader, [])
  | some n =>
    match make n with
    | none => (Parse.allocPanic n, reader, [])
    | some bodyBytes =>
      match reader.Read bodyBytes.length with
      | (data, some e, reader1) =>
        (Parse.bodyError e, reader1, [Event.read bodyBytes.length data (some e)])
      | (data, none, reader1) =>
        (Parse.ok { method := method, path := path, headers := headers,
                    body := data ++ bodyBytes.drop data.length },
         reader1, [Event.read bodyBytes.length data none])

/-- The parsing part of `handleConnection`, lines 58-101. -/
def parseRequest (conn : Conn) : Parse × Reader × List Event :=
  match (NewReader conn).ReadString LF with
  | (requestLine, some e, reader) => (Parse.readError e, reader, [Event.readString requestLine (some e)])
  | (requestLine, none, reader) =>
    match Fields requestLine with
    | [method, path, _] =>
      match readHeaders reader with
      | (reader1, headers, tr1) =>
        match readBody method path headers reader1 with
        | (p, reader2, tr2) => (p, reader2, Event.readString requestLine none :: (tr1 ++ tr2))
    | _ => (Parse.malformed requestLine, reader, [Event.readString requestLine none])

/-- The loop of lines 111-116 up to its `return`: the first route, from index
`i` on, whose `Pattern` equals `path`. -/
def findRoute : List Route → Nat → Str → Option (Nat × Route)
  | [], _, _ => none
  | route :: rest, i, path =>
    if route.Pattern = path then some (i, route) else findRoute rest (i + 1) path

/-- The response of line 118. -/
def notFoundResponse : Str :=
  bytes "HTTP/1.1 400 OK\r\nContent-Type: text/html\r\n\r\n<h1>Route Not Found</h1>"

/-- How `handleConnection` ends. -/
inductive Exit where
  /-- the parsing part ended the run: a `return` at line 64, 71 or 98, or the
  panic of line 94 -/
  | aborted (p : Parse)
  /-- line 114, after the handler of the route at index `i` -/
  | handled (i : Nat)
  /-- line 118, the default response -/
  | notFound
  deriving DecidableEq

/-- A run of `handleConnection`. -/
structure Result where
  exit : Exit
  /-- the request, when line 103 was reached -/
  request : Option Request
  /-- the calls made, in order -/
  trace : List Event
  /-- the connection afterwards -/
  conn : Conn
  deriving DecidableEq

/-- The method `handleConnection` (lines 49-120); the deferred `conn.Close()`
runs last on every path, the panic included. -/
def TCPHandler.handleConnection (h : TCPHandler) (conn : Conn) : Result :=
  match parseRequest conn with
  | (Parse.ok req, reader, tr) =>
    match findRoute h.routes 0 req.path with
    | some (i, route) =>
      { exit := Exit.handled i, request := some req,
        trace := tr ++ [Event.call i, Event.close],
        conn := (route.Handler reader.rd).Close }
    | none =>
      { exit := Exit.notFound, request := some req,
        trace := tr ++ [Event.write notFoundResponse, Event.close],
        conn := (reader.rd.Write notFoundResponse).Close }
  | (p, reader, tr) =>
    { exit := Exit.aborted p, request := none, trace := tr ++ [Event.close],
      conn := reader.rd.Close }

/-- The result of one call of `listener.Accept()`: a connection, or an error. -/
inductive Accepted where
  | conn (c : Conn)
  | failed (e : Error)
  deriving DecidableEq

/-- A `net.Listener`: the results of its calls of `Accept`, in order (a sequence
without end), the number of calls made and the number of calls of `Close`. -/
structure Listener where
  accepts : Nat → Accepted
  calls : Nat
  closed : Nat

/-- The call `listener.Accept()`. -/
def Listener.Accept (l : Listener) : Accepted × Listener :=
  (l.accepts l.calls, { l with calls := l.calls + 1 })

/-- The call `listener.Close()`. -/
def Listener.Close (l : Listener) : Listener := { l with closed := l.closed + 1 }

/-- A call of `ServeTCP` that has returned. -/
structure Served where
  /-- the error returned, `none` for `nil` -/
  ret : Option Error
  /-- the connections given to `go h.handleConnection(conn)`, in order -/
  started : List Conn
  /-- the runs of the tasks started, in the same order; each task runs on its
  own connection -/
  runs : List Result
  /-- the listener afterwards, the deferred `listener.Close()` included -/
  listener : Listener

/-- The loop of `ServeTCP`, lines 38-45: accept; on an error return it (line 41),
else start a task for the connection (line 44) and go on.  The loop has no
other exit, so a run of `fuel` turns that has not met an error has not returned:
`none`.  This is what `ServeTCP` does as long as the process runs: a task that
panics (line 94) ends the process, and this loop with it, at a time of its own. -/
def serveLoop (h : TCPHandler) : Nat → Listener → List Conn → List Result → Option Served
  | 0, _, _, _ => none
  | fuel + 1, l, started, runs =>
    match l.Accept with
    | (Accepted.failed e, l1) =>
      some { ret := some e, started := started, runs := runs, listener := l1.Close }
    | (Accepted.conn c, l1) =>
      serveLoop h fuel l1 (started ++ [c]) (runs ++ [h.handleConnection c])

/-- The method `ServeTCP` (lines 35-46), run for at most `fuel` turns of its
loop. -/
def TCPHandler.ServeTCP (h : TCPHandler) (fuel : Nat) (listener : Listener) : Option Served :=
  serveLoop h fuel listener [] []

/-- The response of line 129. -/
def helloResponse : Str :=
  bytes "HTTP/1.1 200 OK\r\nContent-Type: text/html\r\n\r\n<h1>Hello Dev</h1>"

/-- The route table built by `main` (lines 124-131). -/
def mainHandler : TCPHandler :=
  NewTCPHandler.HandleFunc (bytes "/") (fun conn => conn.Write helloResponse)

/-- A fresh connection on which `segments` arrive and then the peer closes. -/
def connOf (segments : List Str) : Conn :=
  { chunks := segments, fail := Error.EOF, written := [], closed := 0 }

/-! ## Handlers as closures, the route table as state

A `HandlerFunc` is a Go closure: besides the connection it is given, it reaches
the variables it has captured, and the `*TCPHandler` can be one of them (in
`main` the variable `handler` is in scope where the callback of line 127 is
written).  `HandleFunc` is the one statement of the program that assigns to
`routes`.  With the route table as state, a handler is therefore what it does
to the connection together with the calls of `HandleFunc` it makes, in order,
and `handleConnection` hands the table on as the handler leaves it.
-/

/-- A handler as a closure: for the connection it is given, the connection
afterwards and the routes it registers, as pairs of a pattern and a handler. -/
inductive Closure where
  | mk (act : Conn → Conn × List (Str × Closure)) : Closure

/-- The call of the closure on a connection. -/
def Closure.act : Closure → Conn → Conn × List (Str × Closure)
  | Closure.mk act => act

/-- A handler that registers nothing: a `HandlerFunc` of the sections above. -/
def Closure.plain (f : HandlerFunc) : Closure := Closure.mk (fun conn => (f conn, []))

/-- The struct `Route` (lines 14-17) with a closure for handler. -/
structure ClosureRoute where
  Pattern : Str
  Handler : Closure

/-- The struct `TCPHandler` (lines 20-22) with closures for handlers. -/
structure ClosureTable where
  routes : List ClosureRoute

/-- The method `HandleFunc` (lines 30-32) on a table of closures. -/
def ClosureTable.HandleFunc (h : ClosureTable) (pattern : Str) (handler : Closure) :
    ClosureTable :=
  { routes := h.routes ++ [{ Pattern := pattern, Handler := handler }] }

/-- The calls of `HandleFunc` that a handler makes, one after the other. -/
def ClosureTable.register (h : ClosureTable) : List (Str × Closure) → ClosureTable
  | [] => h
  | (pattern, handler) :: rest => (h.HandleFunc pattern handler).register rest

/-- The loop of lines 111-116 up to its `return`, on a table of closures. -/
def findClosureRoute : List ClosureRoute → Nat → Str → Option (Nat × ClosureRoute)
  | [], _, _ => none
  | route :: rest, i, path =>
    if route.Pattern = path then some (i, route) else findClosureRoute rest (i + 1) path

/-- The method `handleConnection` (lines 49-120) with the route table as state:
the table after the run, and the run.  The method itself assigns to no field
of `h`; the table changes where the handler called at line 113 registers
routes. -/
def ClosureTable.handleConnection (h : ClosureTable) (conn : Conn) : ClosureTable × Result :=
  match parseRequest conn with
  | (Parse.ok req, reader, tr) =>
    match findClosureRoute h.routes 0 req.path with
    | some (i, route) =>
      match route.Handler.act reader.rd with
      | (conn1, registered) =>
        (h.register registered,
         { exit := Exit.handled i, request := some req,
           trace := tr ++ [Event.call i, Event.close], conn := conn1.Close })
    | none =>
      (h, { exit := Exit.notFound, request := some req,
            trace := tr ++ [Event.write notFoundResponse, Event.close],
            conn := (reader.rd.Write notFoundResponse).Close })
  | (p, reader, tr) =>
    (h, { exit := Exit.aborted p, request := none, trace := tr ++ [Event.close],
          conn := reader.rd.Close })

/-- A route table whose handlers register nothing, as a table of closures. -/
def TCPHandler.closures (h : TCPHandler) : ClosureTable :=
  { routes := h.routes.map
      (fun r => { Pattern := r.Pattern, Handler := Closure.plain r.Handler }) }

/-- The routes that a list of registrations adds to a table. -/
def registeredRoutes (registered : List (Str × Closure)) : List ClosureRoute :=
  registered.map (fun p => { Pattern := p.1, Handler := p.2 })

/-- A table like that of `main`, but whose handler for `/`, after it has written
its response, registers the pattern `/new` on the table it has captured. -/
def registeringTable : ClosureTable :=
  ({ routes := [] } : ClosureTable).HandleFunc (bytes "/")
    (Closure.mk (fun conn =>
      (conn.Write helloResponse, [(bytes "/new", Closure.plain (fun c => c))])))

/-! ## Vocabulary of the statements -/

/-- The event is a call of a route's handler. -/
def Event.isCall : Event → Bool
  | Event.call _ => true
  | _ => false

/-- The event is a `Write` by `handleConnection` itself. -/
def Event.isWrite : Event → Bool
  | Event.write _ => true
  | _ => false

/-- The event is a `Read` of the reader (the body read). -/
def Event.isRead : Event → Bool
  | Event.read _ _ _ => true
  | _ => false

/-- The event is the `Close` of the connection by `handleConnection`. -/
def Event.isClose : Event → Bool
  | Event.close => true
  | _ => false

/-- The event is a `ReadString` of the reader (a line read). -/
def Event.isReadString : Event → Bool
  | Event.readString _ _ => true
  | _ => false

/-- A complete line: it ends with its only line feed. -/
def IsLine (l : Str) : Prop := ∃ pre, l = pre ++ [LF] ∧ LF ∉ pre

/-- The events of reading the complete lines `ls`. -/
def lineReads (ls : List Str) : List Event := ls.map (fun l => Event.readString l none)

/-- A listener that accepts the connections `conns`, in order, and then fails
with `e` for ever. -/
def listenerOf (conns : List Conn) (e : Error) : Listener :=
  { accepts := fun i => match conns[i]? with
      | some c => Accepted.conn c
      | none => Accepted.failed e,
    calls := 0, closed := 0 }

/-! ## Lemmas on the library models -/

theorem splitAfter_none {d : Byte} {s : Str} : splitAfter d s = none ↔ d ∉ s := by
  induction s with
  | nil => simp [splitAfter]
  | cons a t ih =>
    unfold splitAfter
    by_cases h : a = d
    · simp [h]
    · rw [if_neg h]
      cases hs : splitAfter d t with
      | none => simp [ih.mp hs, Ne.symm h]
      | some p =>
        have : ¬ d ∉ t := fun hn => by rw [ih.mpr hn] at hs; cases hs
        simp only [not_not] at this
        simp [this]

theorem splitAfter_some {d : Byte} {s l r : Str} (h : splitAfter d s = some (l, r)) :
    s = l ++ r ∧ ∃ pre, l = pre ++ [d] ∧ d ∉ pre := by
  induction s generalizing l r with
  | nil => simp [splitAfter] at h
  | cons a t ih =>
    unfold splitAfter at h
    by_cases ha : a = d
    · rw [if_pos ha] at h
      simp only [Option.some.injEq, Prod.mk.injEq] at h
      obtain ⟨rfl, rfl⟩ := h
      exact ⟨by simp, [], by simp [ha], by simp⟩
    · rw [if_neg ha] at h
      cases hs : splitAfter d t with
      | none => rw [hs] at h; cases h
      | some p =>
        obtain ⟨l1, r1⟩ := p
        rw [hs] at h
        simp only [Option.some.injEq, Prod.mk.injEq] at h
        obtain ⟨rfl, rfl⟩ := h
        obtain ⟨h1, pre, h2, h3⟩ := ih hs
        refine ⟨by simp [h1], a :: pre, by simp [h2], ?_⟩
        simp [h3, Ne.symm ha]

theorem connRead_spec {c c1 : Conn} {k : Nat} {d : Str} {e : Option Error}
    (h : c.Read k = (d, e, c1)) :
    d ++ c1.chunks.flatten = c.chunks.flatten ∧ d.length ≤ k ∧ c1.pending ≤ c.pending ∧
    (e = none → 0 < k → c1.pending < c.pending) ∧ (e ≠ none → d = [] ∧ c1 = c) ∧
    c1.fail = c.fail ∧ c1.written = c.written ∧ c1.closed = c.closed := by
  unfold Conn.Read at h
  split at h
  · simp only [Prod.mk.injEq] at h
    obtain ⟨rfl, rfl, rfl⟩ := h
    simp; omega
  · cases hc : c.chunks with
    | nil =>
      rw [hc] at h
      simp only [Prod.mk.injEq] at h
      obtain ⟨rfl, rfl, rfl⟩ := h
      simp [hc]
    | cons x xs =>
      rw [hc] at h
      simp only at h
      split at h
      · simp only [Prod.mk.injEq] at h
        obtain ⟨rfl, rfl, rfl⟩ := h
        simp [Conn.pending, hc]
        omega
      · simp only [Prod.mk.injEq] at h
        obtain ⟨rfl, rfl, rfl⟩ := h
        simp [Conn.pending, hc, ← List.append_assoc]
        omega

theorem fillLoop_spec (i : Nat) (b : Reader) (hb : b.buf.length < bufSize) (he : b.err = none) :
    (fillLoop i b).remaining = b.remaining ∧
    (fillLoop i b).rd.pending ≤ b.rd.pending ∧
    ((fillLoop i b).err = none → (fillLoop i b).rd.pending < b.rd.pending) ∧
    ((fillLoop i b).err ≠ none → (fillLoop i b).buf = b.buf) ∧
    (fillLoop i b).rd.fail = b.rd.fail ∧ (fillLoop i b).rd.written = b.rd.written ∧
    (fillLoop i b).rd.closed = b.rd.closed := by
  induction i generalizing b with
  | zero => simp [fillLoop, Reader.remaining]
  | succ i ih =>
    unfold fillLoop
    rcases hr : b.rd.Read (bufSize - b.buf.length) with ⟨d, e, c⟩
    obtain ⟨h1, h2, h3, h4, h5, h6, h7, h8⟩ := connRead_spec hr
    cases e with
    | some e =>
      obtain ⟨rfl, rfl⟩ := h5 (by simp)
      simp [Reader.remaining]
    | none =>
      simp only
      by_cases hd : 0 < d.length
      · rw [if_pos hd]
        have := h4 rfl (by omega)
        simp [Reader.remaining, he, ← h1, this, h6, h7, h8]
        omega
      · rw [if_neg hd]
        have hd0 : d = [] := by
          cases d with
          | nil => rfl
          | cons x xs => simp at hd
        subst hd0
        simp only [List.append_nil]
        have := ih { buf := b.buf, err := b.err, rd := c } hb he
        obtain ⟨g1, g2, g3, g4, g5, g6, g7⟩ := this
        dsimp only at g2 g3 g4 g5 g6 g7
        have hlt := h4 rfl (by omega)
        refine ⟨?_, by omega, fun hn => by have := g3 hn; omega, ?_, ?_, ?_, ?_⟩
        · rw [g1]; simp [Reader.remaining, ← h1]
        · intro hn; rw [g4 hn]
        · rw [g5]; exact h6
        · rw [g6]; exact h7
        · rw [g7]; exact h8

theorem turns_fill (b : Reader) (hb : ¬ bufSize ≤ b.buf.length) (he : b.err = none) :
    (fill b).turns < b.turns := by
  obtain ⟨-, g2, g3, g4, -⟩ := fillLoop_spec 100 b (by omega) he
  unfold Reader.turns fill
  rw [if_pos he, if_neg hb]
  by_cases hn : (fillLoop 100 b).err = none
  · rw [if_pos hn]
    have := g3 hn
    split <;> omega
  · rw [if_neg hn, g4 hn, if_neg hb]
    omega

theorem turns_full (b : Reader) (hb : bufSize ≤ b.buf.length) (he : b.err = none) :
    ({ b with buf := [] } : Reader).turns < b.turns := by
  unfold Reader.turns
  rw [if_pos he, if_pos hb]
  simp [bufSize]

theorem readStringLoop_spec (d : Byte) (f : Nat) (acc : Str) (b : Reader)
    (hf : b.turns ≤ f) (hok : b.err ≠ none → d ∉ b.buf) (hacc : d ∉ acc) :
    (readStringLoop d f acc b).1 ++ (readStringLoop d f acc b).2.2.remaining
      = acc ++ b.remaining ∧
    (readStringLoop d f acc b).2.2.err = none ∧
    ((readStringLoop d f acc b).2.1 = none →
      ∃ pre, (readStringLoop d f acc b).1 = pre ++ [d] ∧ d ∉ pre) ∧
    ((readStringLoop d f acc b).2.1 ≠ none →
      d ∉ (readStringLoop d f acc b).1 ∧ (readStringLoop d f acc b).2.2.buf = []) ∧
    (readStringLoop d f acc b).2.2.rd.fail = b.rd.fail ∧
    (readStringLoop d f acc b).2.2.rd.written = b.rd.written ∧
    (readStringLoop d f acc b).2.2.rd.closed = b.rd.closed := by
  induction f generalizing acc b with
  | zero => unfold Reader.turns at hf; omega
  | succ f ih =>
    unfold readStringLoop
    cases hs : splitAfter d b.buf with
    | some p =>
      obtain ⟨l, r⟩ := p
      obtain ⟨h1, pre, h2, h3⟩ := splitAfter_some hs
      simp only
      have herr : b.err = none := by
        by_contra hne
        have := hok hne
        rw [h1, h2] at this
        simp at this
      refine ⟨by simp [Reader.remaining, h1], herr, fun _ => ⟨acc ++ pre, by simp [h2], ?_⟩,
        fun hn => absurd rfl hn, ?_⟩
      · simp [hacc, h3]
      · simp
    | none =>
      have hnb := splitAfter_none.mp hs
      simp only
      cases he : b.err with
      | some e =>
        simp only
        refine ⟨?_, ?_, ?_, ?_, ?_⟩
        · simp [Reader.remaining]
        · simp
        · simp
        · simp [hacc, hnb]
        · simp
      | none =>
        simp only
        by_cases hb : bufSize ≤ b.buf.length
        · rw [if_pos hb]
          have := ih (acc ++ b.buf) { b with buf := [] }
            (by have := turns_full b hb he; omega) (by simp [he]) (by simp [hacc, hnb])
          simpa [Reader.remaining, he] using this
        · rw [if_neg hb]
          obtain ⟨g1, g2, g3, g4, g5, g6, g7⟩ := fillLoop_spec 100 b (by omega) he
          have := ih acc (fill b) (by have := turns_fill b hb he; omega)
            (fun hn => by unfold fill at hn ⊢; rw [g4 hn]; exact hnb) hacc
          unfold fill at this ⊢
          rw [g1, g5, g6, g7] at this
          exact this

/-- The fuel of `ReadString` is enough: from `turns` on, more fuel changes
nothing, so the branch for spent fuel is never taken. -/
theorem readStringLoop_fuel (d : Byte) (f g : Nat) (acc : Str) (b : Reader)
    (hf : b.turns ≤ f) (hg : b.turns ≤ g) :
    readStringLoop d f acc b = readStringLoop d g acc b := by
  induction f generalizing g acc b with
  | zero => unfold Reader.turns at hf; omega
  | succ f ih =>
    cases g with
    | zero => unfold Reader.turns at hg; omega
    | succ g =>
      unfold readStringLoop
      cases hs : splitAfter d b.buf with
      | some p => rfl
      | none =>
        simp only
        cases he : b.err with
        | some e => rfl
        | none =>
          simp only
          by_cases hb : bufSize ≤ b.buf.length
          · rw [if_pos hb, if_pos hb]
            have := turns_full b hb he
            rw [he] at this
            exact ih g _ _ (by omega) (by omega)
          · rw [if_neg hb, if_neg hb]
            have := turns_fill b hb he
            exact ih g _ _ (by omega) (by omega)

theorem ReadString_spec {b b1 : Reader} {d : Byte} {line : Str} {e : Option Error}
    (h : b.ReadString d = (line, e, b1)) (hb : b.err = none) :
    line ++ b1.remaining = b.remaining ∧ b1.err = none ∧
    (e = none → ∃ pre, line = pre ++ [d] ∧ d ∉ pre) ∧
    (e ≠ none → d ∉ line ∧ b1.buf = []) ∧
    b1.rd.fail = b.rd.fail ∧ b1.rd.written = b.rd.written ∧ b1.rd.closed = b.rd.closed := by
  have := readStringLoop_spec d b.turns [] b (le_refl _) (by simp [hb]) (by simp)
  unfold Reader.ReadString at h
  rw [h] at this
  simpa using this

theorem readerRead_spec {b b1 : Reader} {n : Nat} {data : Str} {e : Option Error}
    (h : b.Read n = (data, e, b1)) (hb : b.err = none) :
    data ++ b1.remaining = b.remaining ∧ data.length ≤ n ∧ b1.err = none ∧
    (n = 0 → e = none) ∧
    b1.rd.fail = b.rd.fail ∧ b1.rd.written = b.rd.written ∧ b1.rd.closed = b.rd.closed := by
  unfold Reader.Read at h
  split at h
  · split at h <;>
    · simp only [Prod.mk.injEq] at h
      obtain ⟨rfl, rfl, rfl⟩ := h
      simp [hb, Reader.remaining]
  · rename_i hn
    split at h
    · rename_i hbuf
      rw [hb] at h
      simp only at h
      split at h
      · rcases hr : b.rd.Read n with ⟨d, e1, c⟩
        rw [hr] at h
        simp only [Prod.mk.injEq] at h
        obtain ⟨rfl, rfl, rfl⟩ := h
        obtain ⟨h1, h2, -, -, -, h6, h7, h8⟩ := connRead_spec hr
        simp [Reader.remaining, h1, hbuf, h2, hn, h6, h7, h8]
      · rcases hr : b.rd.Read bufSize with ⟨d, e1, c⟩
        rw [hr] at h
        simp only at h
        obtain ⟨h1, h2, -, -, h5, h6, h7, h8⟩ := connRead_spec hr
        split at h
        · simp only [Prod.mk.injEq] at h
          obtain ⟨rfl, rfl, rfl⟩ := h
          rename_i hd
          have hd0 : d = [] := List.length_eq_zero.mp hd
          subst hd0
          simp [Reader.remaining, ← h1, hbuf, hn, h6, h7, h8]
        · simp only [Prod.mk.injEq] at h
          obtain ⟨rfl, rfl, rfl⟩ := h
          rename_i hd
          have he1 : e1 = none := by
            by_contra hne
            exact hd (by rw [(h5 hne).1]; rfl)
          simp [Reader.remaining, ← h1, hbuf, hn, h6, h7, h8, he1, ← List.append_assoc]
    · simp only [Prod.mk.injEq] at h
      obtain ⟨rfl, rfl, rfl⟩ := h
      simp [Reader.remaining, hb, hn, ← List.append_assoc]

theorem headerLoop_spec (f : Nat) (b : Reader) (hs : Headers)
    (hf : b.remaining.length < f) (hb : b.err = none) :
    ∃ (ls : List Str) (last : Str) (e : Option Error),
      (headerLoop f b hs).2.2 =
        lineReads ls ++ [Event.readString last e] ∧
      (headerLoop f b hs).2.1 = ls.foldl addHeader hs ∧
      ls.flatten ++ last ++ (headerLoop f b hs).1.remaining = b.remaining ∧
      (∀ l ∈ ls, l ≠ CRLF ∧ IsLine l) ∧
      (e = none → last = CRLF) ∧ (e ≠ none → LF ∉ last ∧ (headerLoop f b hs).1.buf = []) ∧
      (headerLoop f b hs).1.err = none ∧
      (headerLoop f b hs).1.rd.fail = b.rd.fail ∧
      (headerLoop f b hs).1.rd.written = b.rd.written ∧
      (headerLoop f b hs).1.rd.closed = b.rd.closed := by
  induction f generalizing b hs with
  | zero => omega
  | succ f ih =>
    unfold headerLoop
    rcases hr : b.ReadString LF with ⟨line, e, b1⟩
    obtain ⟨h1, h2, h3, h4, h5, h6, h7⟩ := ReadString_spec hr hb
    simp only
    by_cases hc : e ≠ none ∨ line = CRLF
    · rw [if_pos hc]
      refine ⟨[], line, e, by simp [lineReads], by simp, by simpa using h1, by simp, ?_, ?_, h2, h5, h6, h7⟩
      · intro he
        rcases hc with hc | hc
        · exact absurd he hc
        · exact hc
      · intro he
        exact h4 he
    · rw [if_neg hc]
      simp only [not_or, not_not] at hc
      obtain ⟨he, hl⟩ := hc
      subst he
      obtain ⟨pre, hp1, hp2⟩ := h3 rfl
      have hlen : b1.remaining.length < f := by
        have := congrArg List.length h1
        rw [hp1] at this
        simp at this
        omega
      obtain ⟨ls, last, e, g1, g2, g3, g4, g5, g6, g7, g8, g9, g10⟩ :=
        ih b1 (addHeader hs line) hlen h2
      refine ⟨line :: ls, last, e, by simp [g1, lineReads], by simp [g2], ?_, ?_, g5, g6, g7,
        by rw [g8, h5], by rw [g9, h6], by rw [g10, h7]⟩
      · rw [← h1, ← g3]; simp
      · intro l hl1
        rcases List.mem_cons.mp hl1 with rfl | hl1
        · exact ⟨hl, pre, hp1, hp2⟩
        · exact g4 l hl1

/-- The fuel of the header loop is enough: beyond the length of `remaining`,
more fuel changes nothing. -/
theorem headerLoop_fuel (f g : Nat) (b : Reader) (hs : Headers)
    (hf : b.remaining.length < f) (hg : b.remaining.length < g) (hb : b.err = none) :
    headerLoop f b hs = headerLoop g b hs := by
  induction f generalizing g b hs with
  | zero => omega
  | succ f ih =>
    cases g with
    | zero => omega
    | succ g =>
      unfold headerLoop
      rcases hr : b.ReadString LF with ⟨line, e, b1⟩
      obtain ⟨h1, h2, h3, -⟩ := ReadString_spec hr hb
      simp only
      by_cases hc : e ≠ none ∨ line = CRLF
      · rw [if_pos hc, if_pos hc]
      · rw [if_neg hc, if_neg hc]
        simp only [not_or, not_not] at hc
        obtain ⟨pre, hp1, hp2⟩ := h3 hc.1
        have hlen : b1.remaining.length < b.remaining.length := by
          have := congrArg List.length h1
          rw [hp1] at this
          simp at this
          omega
        rw [ih g b1 _ (by omega) (by omega) h2]

/-! ## Lemmas on the header map and the route loop -/

theorem mapGet_append (m1 m2 : Headers) (k : Str) :
    mapGet (m1 ++ m2) k = (mapGet m1 k).orElse (fun _ => mapGet m2 k) := by
  induction m1 with
  | nil => simp [mapGet]
  | cons p t ih =>
    obtain ⟨k1, v⟩ := p
    simp only [List.cons_append, mapGet]
    split
    · simp
    · exact ih

theorem mapGet_filter_ne (m : Headers) (k k2 : Str) :
    mapGet (m.filter (fun e => e.1 ≠ k)) k2 = if k2 = k then none else mapGet m k2 := by
  induction m with
  | nil => simp [mapGet]
  | cons p t ih =>
    obtain ⟨k1, v⟩ := p
    by_cases h1 : k1 = k
    · subst h1
      simp only [List.filter, ne_eq, not_true_eq_false, decide_False, mapGet]
      rw [ih]
      by_cases h2 : k2 = k1
      · simp [h2]
      · simp [h2, Ne.symm h2]
    · have : List.filter (fun e => decide (e.1 ≠ k)) ((k1, v) :: t)
          = (k1, v) :: List.filter (fun e => decide (e.1 ≠ k)) t := by
        simp [List.filter, h1]
      rw [this]
      simp only [mapGet]
      rw [ih]
      by_cases h2 : k1 = k2
      · subst h2
        simp [h1]
      · simp [h2]

theorem mapGet_mapSet (m : Headers) (k v k2 : Str) :
    mapGet (mapSet m k v) k2 = if k2 = k then some v else mapGet m k2 := by
  unfold mapSet
  rw [mapGet_append, mapGet_filter_ne]
  by_cases h : k2 = k
  · subst h
    simp [mapGet]
  · simp only [h, if_false]
    cases hm : mapGet m k2 with
    | none => simp [mapGet, Ne.symm h]
    | some x => simp

theorem findRoute_none {rs : List Route} {i : Nat} {path : Str} :
    findRoute rs i path = none ↔ ∀ r ∈ rs, r.Pattern ≠ path := by
  induction rs generalizing i with
  | nil => simp [findRoute]
  | cons r t ih =>
    unfold findRoute
    by_cases h : r.Pattern = path
    · simp [h]
    · simp [h, ih]

theorem findRoute_some {rs : List Route} {i j : Nat} {path : Str} {r : Route}
    (h : findRoute rs i path = some (j, r)) :
    i ≤ j ∧ rs[j - i]? = some r ∧ r.Pattern = path ∧
    ∀ k r2, k < j - i → rs[k]? = some r2 → r2.Pattern ≠ path := by
  induction rs generalizing i with
  | nil => simp [findRoute] at h
  | cons r0 t ih =>
    unfold findRoute at h
    by_cases hp : r0.Pattern = path
    · rw [if_pos hp] at h
      simp only [Option.some.injEq, Prod.mk.injEq] at h
      obtain ⟨rfl, rfl⟩ := h
      simp [hp]
    · rw [if_neg hp] at h
      obtain ⟨h1, h2, h3, h4⟩ := ih h
      have hj : j - i = (j - (i + 1)) + 1 := by omega
      refine ⟨by omega, by rw [hj]; simpa using h2, h3, ?_⟩
      intro k r2 hk hr2
      cases k with
      | zero =>
        simp at hr2
        subst hr2
        exact hp
      | succ k =>
        simp at hr2
        exact h4 k r2 (by omega) hr2

/-! ## Lemmas on the parsing part -/

theorem readHeaders_spec (b : Reader) (hb : b.err = none) :
    ∃ (ls : List Str) (last : Str) (e : Option Error),
      (readHeaders b).2.2 = lineReads ls ++ [Event.readString last e] ∧
      (readHeaders b).2.1 = ls.foldl addHeader [] ∧
      ls.flatten ++ last ++ (readHeaders b).1.remaining = b.remaining ∧
      (∀ l ∈ ls, l ≠ CRLF ∧ IsLine l) ∧
      (e = none → last = CRLF) ∧ (e ≠ none → LF ∉ last ∧ (readHeaders b).1.buf = []) ∧
      (readHeaders b).1.err = none ∧
      (readHeaders b).1.rd.fail = b.rd.fail ∧
      (readHeaders b).1.rd.written = b.rd.written ∧
      (readHeaders b).1.rd.closed = b.rd.closed :=
  headerLoop_spec (b.remaining.length + 1) b [] (Nat.lt_succ_self _) hb

theorem make_some {n : Int} {p : Str} (h : make n = some p) :
    0 ≤ n ∧ n ≤ (maxAlloc : Int) ∧ p = List.replicate n.toNat 0 := by
  unfold make at h
  split at h
  · cases h
  · rename_i hn
    simp only [not_or, not_lt] at hn
    simp only [Option.some.injEq] at h
    exact ⟨hn.1, hn.2, h.symm⟩

theorem readBody_none {method path : Str} {headers : Headers} (reader : Reader)
    (h : contentLength headers = none) :
    readBody method path headers reader =
      (Parse.ok { method := method, path := path, headers := headers, body := [] }, reader, []) := by
  simp [readBody, h]

/-- What a body part that reaches line 103 has done. -/
theorem readBody_ok {method path : Str} {headers : Headers} {b reader : Reader} {req : Request}
    {tr : List Event} (h : readBody method path headers b = (Parse.ok req, reader, tr))
    (hb : b.err = none) :
    req.method = method ∧ req.path = path ∧ req.headers = headers ∧
    ((contentLength headers = none ∧ req.body = [] ∧ reader = b ∧ tr = []) ∨
     (∃ (n : Nat) (data : Str), contentLength headers = some (n : Int) ∧ n ≤ maxAlloc ∧
        b.Read n = (data, none, reader) ∧ tr = [Event.read n data none] ∧
        req.body = data ++ List.replicate (n - data.length) 0 ∧
        data ++ reader.remaining = b.remaining ∧ data.length ≤ n)) ∧
    reader.err = none ∧ reader.rd.fail = b.rd.fail ∧ reader.rd.written = b.rd.written ∧
    reader.rd.closed = b.rd.closed := by
  unfold readBody at h
  cases hc : contentLength headers with
  | none =>
    rw [hc] at h
    simp only [Prod.mk.injEq, Parse.ok.injEq] at h
    obtain ⟨rfl, rfl, rfl⟩ := h
    simp [hb]
  | some n =>
    rw [hc] at h
    simp only at h
    cases hm : make n with
    | none => rw [hm] at h; simp at h
    | some p =>
      rw [hm] at h
      simp only at h
      obtain ⟨h0, h1, rfl⟩ := make_some hm
      rcases hr : b.Read (List.replicate n.toNat 0).length with ⟨data, e, r1⟩
      rw [hr] at h
      cases e with
      | some e => simp at h
      | none =>
        simp only [Prod.mk.injEq, Parse.ok.injEq] at h
        obtain ⟨rfl, rfl, rfl⟩ := h
        simp only [List.length_replicate] at hr
        obtain ⟨g1, g2, g3, -, g5, g6, g7⟩ := readerRead_spec hr hb
        refine ⟨rfl, rfl, rfl, Or.inr ⟨n.toNat, data, ?_, ?_, hr, by simp, by simp, g1, g2⟩,
          g3, g5, g6, g7⟩
        · rw [Int.toNat_of_nonneg h0]
        · have : ((n.toNat : Nat) : Int) ≤ (maxAlloc : Int) := by
            rw [Int.toNat_of_nonneg h0]; exact h1
          exact_mod_cast this

/-- What a parsing part that reaches line 103 has done: a request line of
three fields, the header lines `ls` up to the line `last` that ended the loop,
and the body part. -/
theorem parseRequest_ok {conn : Conn} {req : Request} {reader : Reader} {tr : List Event}
    (h : parseRequest conn = (Parse.ok req, reader, tr)) :
    ∃ (l0 version : Str) (b0 b1 : Reader) (ls : List Str) (last : Str) (e : Option Error)
      (tr2 : List Event),
      (NewReader conn).ReadString LF = (l0, none, b0) ∧
      Fields l0 = [req.method, req.path, version] ∧ IsLine l0 ∧
      readHeaders b0 = (b1, req.headers, lineReads ls ++ [Event.readString last e]) ∧
      req.headers = ls.foldl addHeader [] ∧
      (∀ l ∈ ls, l ≠ CRLF ∧ IsLine l) ∧
      (e = none → last = CRLF) ∧ (e ≠ none → LF ∉ last ∧ b1.buf = []) ∧
      b1.err = none ∧
      l0 ++ ls.flatten ++ last ++ b1.remaining = conn.chunks.flatten ∧
      readBody req.method req.path req.headers b1 = (Parse.ok req, reader, tr2) ∧
      tr = Event.readString l0 none :: (lineReads ls ++ [Event.readString last e] ++ tr2) ∧
      b1.rd.fail = conn.fail ∧ b1.rd.written = conn.written ∧ b1.rd.closed = conn.closed := by
  unfold parseRequest at h
  rcases hr : (NewReader conn).ReadString LF with ⟨l0, e0, b0⟩
  rw [hr] at h
  obtain ⟨h1, h2, h3, -, h5, h6, h7⟩ := ReadString_spec hr rfl
  cases e0 with
  | some e => simp at h
  | none =>
    simp only at h
    split at h
    · rename_i method path version hf
      obtain ⟨ls, last, e, g1, g2, g3, g4, g5, g6, g7, g8, g9, g10⟩ := readHeaders_spec b0 h2
      rcases hh : readHeaders b0 with ⟨b1, headers, tr1⟩
      rw [hh] at h g1 g2 g3 g6 g7 g8 g9 g10
      simp only at h g1 g2 g3 g6 g7 g8 g9 g10
      rcases hb : readBody method path headers b1 with ⟨p, reader2, tr2⟩
      rw [hb] at h
      simp only [Prod.mk.injEq] at h
      obtain ⟨rfl, rfl, rfl⟩ := h
      obtain ⟨k1, k2, k3, -⟩ := readBody_ok hb g7
      subst k1 k2 k3
      refine ⟨l0, version, b0, b1, ls, last, e, tr2, rfl, hf, h3 rfl, by rw [hh, g1], g2, g4, g5, g6,
        g7, ?_, hb, by rw [g1], ?_, ?_, ?_⟩
      · have : (NewReader conn).remaining = conn.chunks.flatten := by simp [NewReader, Reader.remaining]
        rw [← this, ← h1, ← g3]
        simp
      · rw [g8, h5]; rfl
      · rw [g9, h6]; rfl
      · rw [g10, h7]; rfl
    · simp at h

/-! ## Lemmas on one header line -/

theorem takeWhile_ne_append {sep : Byte} (before after : Str) (h : sep ∉ before) :
    List.takeWhile (fun a => decide (a ≠ sep)) (before ++ sep :: after) = before := by
  induction before with
  | nil => simp [List.takeWhile]
  | cons x t ih =>
    have hx : x ≠ sep := fun hx => h (by simp [hx])
    have := ih (fun ht => h (List.mem_cons_of_mem _ ht))
    simp only [List.cons_append, List.takeWhile_cons, hx, ne_eq, not_false_eq_true, decide_True,
      if_true]
    simpa using this

theorem dropWhile_ne_append {sep : Byte} (before after : Str) (h : sep ∉ before) :
    List.dropWhile (fun a => decide (a ≠ sep)) (before ++ sep :: after) = sep :: after := by
  induction before with
  | nil => simp [List.dropWhile]
  | cons x t ih =>
    have hx : x ≠ sep := fun hx => h (by simp [hx])
    have := ih (fun ht => h (List.mem_cons_of_mem _ ht))
    simp only [List.cons_append, List.dropWhile_cons, hx, ne_eq, not_false_eq_true, decide_True,
      if_true]
    simpa using this

theorem SplitN2_of_mem {sep : Byte} (before after : Str) (h : sep ∉ before) :
    SplitN2 (before ++ sep :: after) sep = [before, after] := by
  unfold SplitN2
  rw [if_pos (by simp), takeWhile_ne_append before after h, dropWhile_ne_append before after h]
  rfl

theorem addHeader_of_colon (headers : Headers) (before after : Str) (h : colon ∉ before) :
    addHeader headers (before ++ colon :: after)
      = mapSet headers (TrimSpace before) (TrimSpace after) := by
  unfold addHeader
  rw [SplitN2_of_mem before after h]

theorem addHeader_of_no_colon (headers : Headers) (line : Str) (h : colon ∉ line) :
    addHeader headers line = headers := by
  unfold addHeader SplitN2
  rw [if_neg h]

/-- A line with a colon is the text before its first colon, the colon and the
text after it. -/
theorem split_first_colon {line : Str} (h : colon ∈ line) :
    ∃ before after, line = before ++ colon :: after ∧ colon ∉ before := by
  induction line with
  | nil => simp at h
  | cons x t ih =>
    by_cases hx : x = colon
    · exact ⟨[], t, by simp [hx], by simp⟩
    · have ht : colon ∈ t := by
        rcases List.mem_cons.mp h with h1 | h1
        · exact absurd h1.symm hx
        · exact h1
      obtain ⟨before, after, h1, h2⟩ := ih ht
      refine ⟨x :: before, after, by simp [h1], ?_⟩
      simp [h2, Ne.symm hx]

theorem filter_lineReads_isCall (ls : List Str) : (lineReads ls).filter Event.isCall = [] := by
  induction ls with
  | nil => rfl
  | cons l t ih => simp [lineReads, List.filter, Event.isCall]

theorem filter_lineReads_isWrite (ls : List Str) : (lineReads ls).filter Event.isWrite = [] := by
  induction ls with
  | nil => rfl
  | cons l t ih => simp [lineReads, List.filter, Event.isWrite]

theorem filter_lineReads_isRead (ls : List Str) : (lineReads ls).filter Event.isRead = [] := by
  induction ls with
  | nil => rfl
  | cons l t ih => simp [lineReads, List.filter, Event.isRead]

/-- The parsing part calls no handler and writes nothing, and the connection
under its reader has the bytes written and the closes of the connection it
started from. -/
theorem parseRequest_ok_frame {conn : Conn} {req : Request} {reader : Reader} {tr : List Event}
    (h : parseRequest conn = (Parse.ok req, reader, tr)) :
    tr.filter Event.isCall = [] ∧ tr.filter Event.isWrite = [] ∧
    reader.rd.written = conn.written ∧ reader.rd.closed = conn.closed ∧
    ∃ line rest version, tr = Event.readString line none :: rest ∧
      Fields line = [req.method, req.path, version] := by
  obtain ⟨l0, version, b0, b1, ls, last, e, tr2, -, h2, -, -, -, -, -, -, h9, -, h11, h12, -, h14, h15⟩ :=
    parseRequest_ok h
  obtain ⟨-, -, -, hc, -, -, g3, g4⟩ := readBody_ok h11 h9
  refine ⟨?_, ?_, by rw [g3, h14], by rw [g4, h15], l0, _, version, h12, h2⟩
  · rw [h12]
    rcases hc with ⟨-, -, -, rfl⟩ | ⟨n, data, -, -, -, rfl, -⟩ <;>
      simp [List.filter_cons, Event.isCall, filter_lineReads_isCall]
  · rw [h12]
    rcases hc with ⟨-, -, -, rfl⟩ | ⟨n, data, -, -, -, rfl, -⟩ <;>
      simp [List.filter_cons, Event.isWrite, filter_lineReads_isWrite]

theorem lineReads_append_inj {ls1 ls2 : List Str} {x y : Event}
    (h : lineReads ls1 ++ [x] = lineReads ls2 ++ [y]) : ls1 = ls2 ∧ x = y := by
  have h1 := List.append_inj' h rfl
  refine ⟨?_, by simpa using h1.2⟩
  have hinj : Function.Injective (fun l : Str => Event.readString l none) := by
    intro a b hab
    simpa using hab
  exact List.map_injective_iff.mpr hinj h1.1

/-- The text before the first colon of a line is determined by the line. -/
theorem first_colon_unique {b1 a1 b2 a2 : Str} (h1 : colon ∉ b1) (h2 : colon ∉ b2)
    (h : b1 ++ colon :: a1 = b2 ++ colon :: a2) : b1 = b2 ∧ a1 = a2 := by
  have ht := congrArg (List.takeWhile (fun a => decide (a ≠ colon))) h
  rw [takeWhile_ne_append b1 a1 h1, takeWhile_ne_append b2 a2 h2] at ht
  subst ht
  exact ⟨rfl, by simpa using h⟩

theorem filter_lineReads_isReadString (ls : List Str) :
    (lineReads ls).filter Event.isReadString = lineReads ls := by
  induction ls with
  | nil => rfl
  | cons l t ih =>
    have : lineReads (l :: t) = Event.readString l none :: lineReads t := rfl
    rw [this, List.filter_cons]
    simp [Event.isReadString, ih]

theorem contentLength_none {headers : Headers} :
    contentLength headers = none ↔ mapGet headers contentLengthKey = none := by
  unfold contentLength
  cases mapGet headers contentLengthKey <;> simp

/-- A value that starts with a byte that is no white space, no sign and no
digit is not scanned. -/
theorem Sscanf_of_no_number (a : Byte) (t : Str) (hspace : spaceWidth (a :: t) = 0)
    (hminus : a ≠ 45) (hplus : a ≠ 43) (hdigit : isDigit a = false) :
    Sscanf (a :: t) = none := by
  have hlf : a ≠ 10 := by
    intro h10
    rw [h10] at hspace
    simp [spaceWidth, asciiSpace] at hspace
  have hskip : SkipSpace 0 0 (a :: t) = some (0, a :: t) := by
    unfold SkipSpace
    rw [if_neg (by simp [hugeWid]), if_neg hlf, hspace]
  have htake : List.take (hugeWid - 0) (a :: t) = a :: List.take (hugeWid - 1) t := by
    have : hugeWid - 0 = (hugeWid - 1) + 1 := by simp [hugeWid]
    rw [this, List.take_succ_cons]
  unfold Sscanf
  rw [hskip]
  simp only
  rw [htake]
  simp [acceptSign, hminus, hplus, List.takeWhile_cons, hdigit]

theorem mem_lineReads {ev : Event} {ls : List Str} (h : ev ∈ lineReads ls) :
    ∃ l ∈ ls, ev = Event.readString l none := by
  unfold lineReads at h
  obtain ⟨l, hl, rfl⟩ := List.mem_map.mp h
  exact ⟨l, hl, rfl⟩

/-! ## Streams whose segments all hold data

A TCP connection never delivers an empty segment.  On such a stream a line
that is all there is read whole, however the stream is cut into segments. -/

theorem connRead_nonempty {c c1 : Conn} {k : Nat} {d : Str} {e : Option Error}
    (h : c.Read k = (d, e, c1)) (hk : 0 < k) (hne : ∀ s ∈ c.chunks, s ≠ []) :
    (∀ s ∈ c1.chunks, s ≠ []) ∧ (e = none → d ≠ []) ∧ (e ≠ none → c1.chunks = []) := by
  unfold Conn.Read at h
  rw [if_neg (by omega)] at h
  cases hc : c.chunks with
  | nil =>
    rw [hc] at h
    simp only [Prod.mk.injEq] at h
    obtain ⟨rfl, rfl, rfl⟩ := h
    simp [hc]
  | cons x xs =>
    rw [hc] at h hne
    simp only at h
    have hx : x ≠ [] := hne x (List.mem_cons_self _ _)
    have hxs : ∀ s ∈ xs, s ≠ [] := fun s hs => hne s (List.mem_cons_of_mem _ hs)
    split at h
    · simp only [Prod.mk.injEq] at h
      obtain ⟨rfl, rfl, rfl⟩ := h
      exact ⟨hxs, fun _ => hx, fun hn => absurd rfl hn⟩
    · rename_i hlen
      simp only [Prod.mk.injEq] at h
      obtain ⟨rfl, rfl, rfl⟩ := h
      refine ⟨?_, fun _ => ?_, fun hn => absurd rfl hn⟩
      · intro s hs
        rcases List.mem_cons.mp hs with rfl | hs
        · intro h0
          have := congrArg List.length h0
          simp at this
          omega
        · exact hxs s hs
      · intro h0
        rcases List.take_eq_nil_iff.mp h0 with h0 | h0
        · omega
        · exact hx h0

theorem fill_nonempty (b : Reader) (hb : b.buf.length < bufSize) (he : b.err = none)
    (hne : ∀ s ∈ b.rd.chunks, s ≠ []) :
    (∀ s ∈ (fill b).rd.chunks, s ≠ []) ∧ ((fill b).err ≠ none → (fill b).rd.chunks = []) := by
  unfold fill fillLoop
  rcases hr : b.rd.Read (bufSize - b.buf.length) with ⟨d, e, c⟩
  obtain ⟨h1, h2, h3⟩ := connRead_nonempty hr (by omega) hne
  cases e with
  | some e => exact ⟨h1, fun _ => h3 (by simp)⟩
  | none =>
    have hd : 0 < d.length := List.length_pos.mpr (h2 rfl)
    simp only
    rw [if_pos hd]
    exact ⟨h1, fun hn => absurd he hn⟩

theorem readStringLoop_nonempty (d : Byte) (f : Nat) (acc : Str) (b : Reader)
    (hf : b.turns ≤ f) (hne : ∀ s ∈ b.rd.chunks, s ≠ [])
    (herr : b.err ≠ none → b.rd.chunks = []) :
    (∀ s ∈ (readStringLoop d f acc b).2.2.rd.chunks, s ≠ []) ∧
    ((readStringLoop d f acc b).2.1 ≠ none → (readStringLoop d f acc b).2.2.rd.chunks = []) := by
  induction f generalizing acc b with
  | zero => unfold Reader.turns at hf; omega
  | succ f ih =>
    unfold readStringLoop
    cases hs : splitAfter d b.buf with
    | some p => exact ⟨hne, fun hn => absurd rfl hn⟩
    | none =>
      simp only
      cases he : b.err with
      | some e => exact ⟨hne, fun _ => herr (by simp [he])⟩
      | none =>
        simp only
        by_cases hb : bufSize ≤ b.buf.length
        · rw [if_pos hb]
          have ht := turns_full b hb he
          rw [he] at ht
          exact ih (acc ++ b.buf) { buf := [], err := none, rd := b.rd } (by omega) hne
            (fun hn => absurd rfl hn)
        · rw [if_neg hb]
          have ht := turns_fill b hb he
          obtain ⟨g1, g2⟩ := fill_nonempty b (by omega) he hne
          exact ih acc (fill b) (by omega) g1 g2

/-- The text before the first `d` of a string is determined by the string. -/
theorem first_sep_unique {d : Byte} {b1 a1 b2 a2 : Str} (h1 : d ∉ b1) (h2 : d ∉ b2)
    (h : b1 ++ d :: a1 = b2 ++ d :: a2) : b1 = b2 ∧ a1 = a2 := by
  have ht := congrArg (List.takeWhile (fun a => decide (a ≠ d))) h
  rw [takeWhile_ne_append b1 a1 h1, takeWhile_ne_append b2 a2 h2] at ht
  subst ht
  exact ⟨rfl, by simpa using h⟩

/-- On a stream without empty segments, a reader whose unread bytes start with
a complete line returns that line, without error, and keeps the bytes after
it, however the bytes are cut into segments. -/
theorem ReadString_complete (b : Reader) (d : Byte) (pre rest : Str)
    (hb : b.err = none) (hne : ∀ s ∈ b.rd.chunks, s ≠ [])
    (hrem : b.remaining = pre ++ d :: rest) (hpre : d ∉ pre) :
    ∃ b1, b.ReadString d = (pre ++ [d], none, b1) ∧ b1.remaining = rest ∧ b1.err = none ∧
      (∀ s ∈ b1.rd.chunks, s ≠ []) ∧
      b1.rd.fail = b.rd.fail ∧ b1.rd.written = b.rd.written ∧ b1.rd.closed = b.rd.closed := by
  rcases hr : b.ReadString d with ⟨line, e, b1⟩
  obtain ⟨h1, h2, h3, h4, h5, h6, h7⟩ := ReadString_spec hr hb
  have hn := readStringLoop_nonempty d b.turns [] b (le_refl _) hne (fun hn => absurd hb hn)
  unfold Reader.ReadString at hr
  rw [hr] at hn
  obtain ⟨n1, n2⟩ := hn
  simp only at n1 n2
  cases e with
  | some e =>
    obtain ⟨k1, k2⟩ := h4 (by simp)
    have hch := n2 (by simp)
    have : b1.remaining = [] := by simp [Reader.remaining, k2, hch]
    rw [this, List.append_nil, hrem] at h1
    rw [h1] at k1
    simp at k1
  | none =>
    obtain ⟨pre2, p1, p2⟩ := h3 rfl
    rw [p1, hrem] at h1
    have := first_sep_unique p2 hpre (by simpa using h1)
    obtain ⟨rfl, rfl⟩ := this
    exact ⟨b1, by rw [p1], rfl, h2, n1, h5, h6, h7⟩

/-- A request of one request line of three fields followed by the line CRLF,
on a stream without empty segments, with any bytes after it and however it is
cut into segments: the parsing part reads the two lines and reaches line 103
with no header and the empty body. -/
theorem parseRequest_bare (conn : Conn) (pre extra method path version : Str)
    (hne : ∀ s ∈ conn.chunks, s ≠ [])
    (hstream : conn.chunks.flatten = pre ++ LF :: (CRLF ++ extra)) (hpre : LF ∉ pre)
    (hfields : Fields (pre ++ [LF]) = [method, path, version]) :
    ∃ reader, parseRequest conn =
      (Parse.ok { method := method, path := path, headers := [], body := [] }, reader,
       [Event.readString (pre ++ [LF]) none, Event.readString CRLF none]) ∧
      reader.rd.written = conn.written ∧ reader.rd.closed = conn.closed ∧
      reader.rd.fail = conn.fail := by
  obtain ⟨b1, h1, h2, h3, h4, h5, h6, h7⟩ :=
    ReadString_complete (NewReader conn) LF pre (CRLF ++ extra) rfl hne
      (by simpa [NewReader, Reader.remaining] using hstream) hpre
  obtain ⟨b2, k1, k2, k3, k4, k5, k6, k7⟩ :=
    ReadString_complete b1 LF [13] extra h3 h4
      (by rw [h2]; rfl) (by decide)
  have hh : readHeaders b1 = (b2, [], [Event.readString CRLF none]) := by
    unfold readHeaders headerLoop
    rw [k1]
    simp [CRLF, LF]
  refine ⟨b2, ?_, by rw [k6, h6]; rfl, by rw [k7, h7]; rfl, by rw [k5, h5]; rfl⟩
  unfold parseRequest
  rw [h1]
  simp only
  rw [hfields]
  simp only
  rw [hh]
  simp only
  rw [readBody_none b2 (by decide)]
  rfl

/-! ## Lemmas on `TrimSpace` -/

theorem trimLeftFrom_spaceWidth (k : Nat) (s : Str) : spaceWidth (trimLeftFrom k s) = 0 := by
  induction s generalizing k with
  | nil => cases k <;> simp [trimLeftFrom, spaceWidth]
  | cons a t ih =>
    cases k with
    | succ k => simpa [trimLeftFrom] using ih k
    | zero =>
      unfold trimLeftFrom
      cases hw : spaceWidth (a :: t) with
      | zero => simpa using hw
      | succ w => simpa using ih w

theorem trimRightFrom_spaceWidthRev (k : Nat) (s : Str) :
    spaceWidthRev (trimRightFrom k s) = 0 := by
  induction s generalizing k with
  | nil => cases k <;> simp [trimRightFrom, spaceWidthRev]
  | cons a t ih =>
    cases k with
    | succ k => simpa [trimRightFrom] using ih k
    | zero =>
      unfold trimRightFrom
      cases hw : spaceWidthRev (a :: t) with
      | zero => simpa using hw
      | succ w => simpa using ih w

theorem trimLeftFrom_suffix (k : Nat) (s : Str) : ∃ l, s = l ++ trimLeftFrom k s := by
  induction s generalizing k with
  | nil => exact ⟨[], by cases k <;> simp [trimLeftFrom]⟩
  | cons a t ih =>
    cases k with
    | succ k =>
      obtain ⟨l, hl⟩ := ih k
      exact ⟨a :: l, by simp only [trimLeftFrom, List.cons_append, ← hl]⟩
    | zero =>
      unfold trimLeftFrom
      cases hw : spaceWidth (a :: t) with
      | zero => exact ⟨[], rfl⟩
      | succ w =>
        obtain ⟨l, hl⟩ := ih w
        exact ⟨a :: l, by simp only [List.cons_append, ← hl]⟩

theorem trimRightFrom_suffix (k : Nat) (s : Str) : ∃ l, s = l ++ trimRightFrom k s := by
  induction s generalizing k with
  | nil => exact ⟨[], by cases k <;> simp [trimRightFrom]⟩
  | cons a t ih =>
    cases k with
    | succ k =>
      obtain ⟨l, hl⟩ := ih k
      exact ⟨a :: l, by simp only [trimRightFrom, List.cons_append, ← hl]⟩
    | zero =>
      unfold trimRightFrom
      cases hw : spaceWidthRev (a :: t) with
      | zero => exact ⟨[], rfl⟩
      | succ w =>
        obtain ⟨l, hl⟩ := ih w
        exact ⟨a :: l, by simp only [List.cons_append, ← hl]⟩

theorem spaceWidth_of_append (y z : Str) (h : spaceWidth (y ++ z) = 0) : spaceWidth y = 0 := by
  match y with
  | [] => rfl
  | [a] =>
    cases z with
    | nil => simpa using h
    | cons b z2 =>
      simp only [List.cons_append, List.nil_append, spaceWidth] at h ⊢
      split at h
      · cases h
      · rename_i ha; simp [ha]
  | [a, b] =>
    cases z with
    | nil => simpa using h
    | cons c z2 =>
      simp only [List.cons_append, List.nil_append, spaceWidth] at h ⊢
      split at h
      · cases h
      · rename_i ha
        split at h
        · cases h
        · rename_i hb; simp [ha, hb]
  | a :: b :: c :: t =>
    simp only [List.cons_append, spaceWidth] at h ⊢
    exact h

/-- The result of `TrimSpace` is a piece of the string, and no white-space rune
starts it or ends it. -/
theorem TrimSpace_spec (s : Str) :
    (∃ l r, s = l ++ TrimSpace s ++ r) ∧ spaceWidth (TrimSpace s) = 0 ∧
    spaceWidthRev (TrimSpace s).reverse = 0 := by
  obtain ⟨l, hl⟩ := trimLeftFrom_suffix 0 s
  obtain ⟨r, hr⟩ := trimRightFrom_suffix 0 (trimLeftFrom 0 s).reverse
  have hx : trimLeftFrom 0 s = TrimSpace s ++ r.reverse := by
    have := congrArg List.reverse hr
    simpa [TrimSpace, trimRight, trimLeft] using this
  refine ⟨⟨l, r.reverse, ?_⟩, ?_, ?_⟩
  · rw [List.append_assoc, ← hx]; exact hl
  · apply spaceWidth_of_append _ r.reverse
    rw [← hx]
    exact trimLeftFrom_spaceWidth 0 s
  · simp only [TrimSpace, trimRight, List.reverse_reverse]
    exact trimRightFrom_spaceWidthRev 0 _

/-! ## Lemmas on whole runs -/

theorem readBody_trace (method path : Str) (headers : Headers) (b : Reader) :
    ∀ ev ∈ (readBody method path headers b).2.2, ev.isRead = true := by
  unfold readBody
  cases contentLength headers with
  | none => simp
  | some n =>
    simp only
    cases make n with
    | none => simp
    | some p =>
      simp only
      rcases b.Read p.length with ⟨data, e, r1⟩
      cases e <;> simp [Event.isRead]

/-- The parsing part only reads: every event of it is a `ReadString` or a
`Read` of the reader. -/
theorem parseRequest_trace (conn : Conn) :
    ∀ ev ∈ (parseRequest conn).2.2, ev.isReadString = true ∨ ev.isRead = true := by
  unfold parseRequest
  rcases hr : (NewReader conn).ReadString LF with ⟨l0, e0, b0⟩
  obtain ⟨-, h2, -⟩ := ReadString_spec hr rfl
  cases e0 with
  | some e => simp [Event.isReadString]
  | none =>
    simp only
    split
    · rename_i method path version hf
      obtain ⟨ls, last, e, g1, -⟩ := readHeaders_spec b0 h2
      rcases hh : readHeaders b0 with ⟨b1, headers, tr1⟩
      rw [hh] at g1
      simp only at g1
      have hb := readBody_trace method path headers b1
      rcases hbody : readBody method path headers b1 with ⟨p, r2, tr2⟩
      rw [hbody] at hb
      simp only at hb ⊢
      intro ev hev
      rcases List.mem_cons.mp hev with rfl | hev
      · exact Or.inl rfl
      · rcases List.mem_append.mp hev with hev | hev
        · rw [g1] at hev
          rcases List.mem_append.mp hev with hev | hev
          · obtain ⟨l, -, rfl⟩ := mem_lineReads hev
            exact Or.inl rfl
          · rw [List.mem_singleton.mp hev]
            exact Or.inl rfl
        · exact Or.inr (hb ev hev)
    · simp [Event.isReadString]

theorem filter_eq_nil_of_reads {tr : List Event} {p : Event → Bool}
    (h : ∀ ev ∈ tr, ev.isReadString = true ∨ ev.isRead = true)
    (hp : ∀ ev, ev.isReadString = true ∨ ev.isRead = true → p ev = false) :
    tr.filter p = [] := by
  apply List.filter_eq_nil_iff.mpr
  intro ev hev
  rw [hp ev (h ev hev)]
  simp

theorem isClose_of_read (ev : Event) (h : ev.isReadString = true ∨ ev.isRead = true) :
    ev.isClose = false := by
  cases ev <;> simp [Event.isReadString, Event.isRead, Event.isClose] at h ⊢

theorem isCall_of_read (ev : Event) (h : ev.isReadString = true ∨ ev.isRead = true) :
    ev.isCall = false := by
  cases ev <;> simp [Event.isReadString, Event.isRead, Event.isCall] at h ⊢

theorem isWrite_of_read (ev : Event) (h : ev.isReadString = true ∨ ev.isRead = true) :
    ev.isWrite = false := by
  cases ev <;> simp [Event.isReadString, Event.isRead, Event.isWrite] at h ⊢

/-- A run of `handleConnection` is its parsing part, then nothing or one call
or one write, then the close. -/
theorem handleConnection_trace (h : TCPHandler) (conn : Conn) :
    ∃ mid, (h.handleConnection conn).trace = (parseRequest conn).2.2 ++ mid ++ [Event.close] ∧
      (mid = [] ∨ (∃ i, mid = [Event.call i]) ∨ mid = [Event.write notFoundResponse]) := by
  unfold TCPHandler.handleConnection
  rcases hp : parseRequest conn with ⟨p, reader, tr⟩
  cases p with
  | ok req =>
    simp only
    cases hr : findRoute h.routes 0 req.path with
    | none => exact ⟨[Event.write notFoundResponse], by simp, Or.inr (Or.inr rfl)⟩
    | some x => exact ⟨[Event.call x.1], by simp, Or.inr (Or.inl ⟨x.1, rfl⟩)⟩
  | readError e => exact ⟨[], by simp, Or.inl rfl⟩
  | malformed l => exact ⟨[], by simp, Or.inl rfl⟩
  | allocPanic n => exact ⟨[], by simp, Or.inl rfl⟩
  | bodyError e => exact ⟨[], by simp, Or.inl rfl⟩

/-! ## Lemmas on the route table -/

theorem findRoute_append (rs : List Route) (r : Route) (i : Nat) (path : Str) :
    findRoute (rs ++ [r]) i path =
      match findRoute rs i path with
      | some x => some x
      | none => if r.Pattern = path then some (i + rs.length, r) else none := by
  induction rs generalizing i with
  | nil => simp [findRoute]
  | cons r0 t ih =>
    rw [List.cons_append]
    simp only [findRoute]
    by_cases hp : r0.Pattern = path
    · simp [hp]
    · rw [if_neg hp, if_neg hp, ih (i + 1)]
      have : i + 1 + t.length = i + (r0 :: t).length := by simp; omega
      rw [this]

/-! ## Lemmas on the accept loop -/

/-- The accept loop, from a listener whose next `k` calls of `Accept` give
connections and whose call after them fails with `e`: it returns once it has
`k + 1` turns. -/
theorem serveLoop_returns (h : TCPHandler) (k : Nat) :
    ∀ (fuel : Nat) (l : Listener) (started : List Conn) (runs : List Result) (e : Error)
      (cs : List Conn), cs.length = k →
      (∀ i c, cs[i]? = some c → l.accepts (l.calls + i) = Accepted.conn c) →
      l.accepts (l.calls + k) = Accepted.failed e → k < fuel →
      serveLoop h fuel l started runs =
        some { ret := some e, started := started ++ cs,
               runs := runs ++ cs.map h.handleConnection,
               listener := { accepts := l.accepts, calls := l.calls + k + 1,
                             closed := l.closed + 1 } } := by
  induction k with
  | zero =>
    intro fuel l started runs e cs hcs _ hfail hfuel
    have : cs = [] := List.length_eq_zero.mp hcs
    subst this
    cases fuel with
    | zero => omega
    | succ fuel =>
      simp only [Nat.add_zero] at hfail
      simp [serveLoop, Listener.Accept, hfail, Listener.Close]
  | succ k ih =>
    intro fuel l started runs e cs hcs hconn hfail hfuel
    cases fuel with
    | zero => omega
    | succ fuel =>
      cases cs with
      | nil => simp at hcs
      | cons c cs =>
        have h0 := hconn 0 c (by simp)
        simp only [Nat.add_zero] at h0
        have hrec := ih fuel { l with calls := l.calls + 1 } (started ++ [c])
          (runs ++ [h.handleConnection c]) e cs (by simpa using hcs)
          (fun i c2 hi => by
            have := hconn (i + 1) c2 (by simpa using hi)
            simpa [Nat.add_assoc, Nat.add_comm 1 i] using this)
          (by simpa [Nat.add_assoc, Nat.add_comm 1 k] using hfail) (by omega)
        simp only [serveLoop, Listener.Accept, h0]
        rw [hrec]
        simp [Nat.add_assoc, Nat.add_comm 1 k]

/-- The accept loop has not returned as long as `Accept` has given connections
only. -/
theorem serveLoop_running (h : TCPHandler) :
    ∀ (fuel : Nat) (l : Listener) (started : List Conn) (runs : List Result),
      (∀ i, i < fuel → ∃ c, l.accepts (l.calls + i) = Accepted.conn c) →
      serveLoop h fuel l started runs = none := by
  intro fuel
  induction fuel with
  | zero => intro l started runs _; rfl
  | succ fuel ih =>
    intro l started runs hconn
    obtain ⟨c, hc⟩ := hconn 0 (by omega)
    simp only [Nat.add_zero] at hc
    simp only [serveLoop, Listener.Accept, hc]
    apply ih
    intro i hi
    obtain ⟨c2, hc2⟩ := hconn (i + 1) (by omega)
    exact ⟨c2, by simpa [Nat.add_assoc, Nat.add_comm 1 i] using hc2⟩

/-! ## Lemmas on the header loop and on requests without a body -/

/-- One turn of the header loop at a line that does not end it: the line is
taken into the map and the loop goes on from the reader after the line. -/
theorem headerLoop_step (f : Nat) (b b1 : Reader) (hs : Headers) (line : Str)
    (hb : b.err = none) (hf : b.remaining.length < f)
    (hread : b.ReadString LF = (line, none, b1)) (hline : line ≠ CRLF) :
    headerLoop f b hs =
      ((headerLoop f b1 (addHeader hs line)).1, (headerLoop f b1 (addHeader hs line)).2.1,
       Event.readString line none :: (headerLoop f b1 (addHeader hs line)).2.2) := by
  obtain ⟨h1, h2, h3, -⟩ := ReadString_spec hread hb
  obtain ⟨pre, hp1, -⟩ := h3 rfl
  have hlen : b1.remaining.length < b.remaining.length := by
    have := congrArg List.length h1
    rw [hp1] at this
    simp at this
    omega
  cases f with
  | zero => omega
  | succ f =>
    rw [headerLoop_fuel (f + 1) f b1 _ (by omega) (by omega) h2]
    conv => lhs; unfold headerLoop
    rw [hread]
    simp only
    rw [if_neg (by simp [hline])]

/-- A reader whose unread bytes hold no `d` returns an error from
`ReadString`. -/
theorem ReadString_no_delim (b : Reader) (d : Byte) (hb : b.err = none)
    (hno : d ∉ b.remaining) :
    ∃ line e b1, b.ReadString d = (line, some e, b1) ∧ d ∉ line ∧
      b1.rd.written = b.rd.written ∧ b1.rd.closed = b.rd.closed := by
  rcases hr : b.ReadString d with ⟨line, e, b1⟩
  obtain ⟨h1, -, h3, h4, -, h6, h7⟩ := ReadString_spec hr hb
  cases e with
  | none =>
    obtain ⟨pre, hp, -⟩ := h3 rfl
    rw [← h1, hp] at hno
    simp at hno
  | some e => exact ⟨line, e, b1, rfl, (h4 (by simp)).1, h6, h7⟩

/-- A request whose header map asks for no body, or for one of 0 bytes, reaches
the route loop with the empty body, and its line reads are the request line
and those of the header loop. -/
theorem dispatched_without_body (h : TCPHandler) (conn : Conn)
    (requestLine method path version : Str) (reader : Reader)
    (hread : (NewReader conn).ReadString LF = (requestLine, none, reader))
    (hfields : Fields requestLine = [method, path, version])
    (hcl : contentLength (readHeaders reader).2.1 = none ∨
      contentLength (readHeaders reader).2.1 = some 0) :
    (h.handleConnection conn).request
      = some { method := method, path := path, headers := (readHeaders reader).2.1, body := [] } ∧
    ((h.handleConnection conn).exit = Exit.notFound ∨
      ∃ i, (h.handleConnection conn).exit = Exit.handled i) ∧
    (h.handleConnection conn).trace.filter Event.isReadString
      = Event.readString requestLine none :: (readHeaders reader).2.2 ∧
    (contentLength (readHeaders reader).2.1 = none →
      (h.handleConnection conn).trace.filter Event.isRead = []) := by
  obtain ⟨-, h2, -⟩ := ReadString_spec hread rfl
  obtain ⟨ls, last, e, g1, -, -, -, -, -, g7, -⟩ := readHeaders_spec reader h2
  have hbody : ∃ reader2 tr2,
      readBody method path (readHeaders reader).2.1 (readHeaders reader).1 =
        (Parse.ok { method := method, path := path, headers := (readHeaders reader).2.1,
                    body := [] }, reader2, tr2) ∧ tr2.filter Event.isReadString = [] ∧
      (contentLength (readHeaders reader).2.1 = none → tr2 = []) := by
    rcases hcl with hcl | hcl
    · exact ⟨_, [], readBody_none _ hcl, rfl, fun _ => rfl⟩
    · rcases hrd : (readHeaders reader).1.Read 0 with ⟨data, e0, reader1⟩
      obtain ⟨-, k2, -, k4, -⟩ := readerRead_spec hrd g7
      have hdata : data = [] := List.length_eq_zero.mp (Nat.le_zero.mp k2)
      have he0 : e0 = none := k4 rfl
      subst hdata he0
      refine ⟨reader1, [Event.read 0 [] none], ?_, by simp [List.filter_cons, Event.isReadString],
        fun hn => by rw [hn] at hcl; cases hcl⟩
      have hm : make 0 = some [] := by decide
      unfold readBody
      rw [hcl]
      simp only
      rw [hm]
      simp only [List.length_nil]
      rw [hrd]
      rfl
  obtain ⟨reader2, tr2, hb, htr2, htr3⟩ := hbody
  have hp : parseRequest conn =
      (Parse.ok { method := method, path := path, headers := (readHeaders reader).2.1, body := [] },
       reader2, Event.readString requestLine none :: ((readHeaders reader).2.2 ++ tr2)) := by
    unfold parseRequest
    rw [hread]
    simp only
    rw [hfields]
    simp only
    rw [hb]
  have hrs : ((readHeaders reader).2.2).filter Event.isReadString = (readHeaders reader).2.2 := by
    rw [g1]; simp [List.filter_append, filter_lineReads_isReadString, List.filter_cons,
      Event.isReadString]
  have hrd : ((readHeaders reader).2.2).filter Event.isRead = [] := by
    rw [g1]; simp [List.filter_append, filter_lineReads_isRead, List.filter_cons, Event.isRead]
  refine ⟨?_, ?_, ?_, ?_⟩
  · cases hr : findRoute h.routes 0 path <;> simp [TCPHandler.handleConnection, hp, hr]
  · cases hr : findRoute h.routes 0 path <;> simp [TCPHandler.handleConnection, hp, hr]
  · cases hr : findRoute h.routes 0 path <;>
      simp [TCPHandler.handleConnection, hp, hr, List.filter_cons, List.filter_append,
        Event.isReadString, hrs, htr2]
  · intro hn
    have := htr3 hn
    subst this
    cases hr : findRoute h.routes 0 path <;>
      simp [TCPHandler.handleConnection, hp, hr, List.filter_cons, List.filter_append,
        Event.isRead, hrd]

/-- The parsing part leaves the outbound side of the connection as it was:
whatever way it ends, nothing was written and nothing closed. -/
theorem parseRequest_frame (conn : Conn) :
    (parseRequest conn).2.1.rd.written = conn.written ∧
    (parseRequest conn).2.1.rd.closed = conn.closed := by
  unfold parseRequest
  rcases hr : (NewReader conn).ReadString LF with ⟨l0, e0, b0⟩
  obtain ⟨-, h2, -, -, -, h6, h7⟩ := ReadString_spec hr rfl
  have h6b : b0.rd.written = conn.written := h6
  have h7b : b0.rd.closed = conn.closed := h7
  cases e0 with
  | some e => exact ⟨h6b, h7b⟩
  | none =>
    simp only
    split
    · rename_i method path version hf
      obtain ⟨ls, last, e, -, -, -, -, -, -, g7, -, g9, g10⟩ := readHeaders_spec b0 h2
      rcases hh : readHeaders b0 with ⟨b1, headers, tr1⟩
      rw [hh] at g7 g9 g10
      simp only at g7 g9 g10 ⊢
      have key : (readBody method path headers b1).2.1.rd.written = b1.rd.written ∧
          (readBody method path headers b1).2.1.rd.closed = b1.rd.closed := by
        unfold readBody
        cases contentLength headers with
        | none => exact ⟨rfl, rfl⟩
        | some n =>
          simp only
          cases make n with
          | none => exact ⟨rfl, rfl⟩
          | some p =>
            simp only
            rcases hrd : b1.Read p.length with ⟨data, e1, r1⟩
            obtain ⟨-, -, -, -, -, k6, k7⟩ := readerRead_spec hrd g7
            cases e1 <;> exact ⟨k6, k7⟩
      rcases hbody : readBody method path headers b1 with ⟨p, r2, tr2⟩
      rw [hbody] at key
      simp only at key ⊢
      exact ⟨by rw [key.1, g9, h6b], by rw [key.2, g10, h7b]⟩
    · exact ⟨h6b, h7b⟩

theorem serveLoop_ret (h : TCPHandler) :
    ∀ (fuel : Nat) (l : Listener) (started : List Conn) (runs : List Result) (s : Served),
      serveLoop h fuel l started runs = some s → ∃ e, s.ret = some e := by
  intro fuel
  induction fuel with
  | zero => intro l started runs s hs; simp [serveLoop] at hs
  | succ fuel ih =>
    intro l started runs s hs
    unfold serveLoop at hs
    rcases ha : l.Accept with ⟨a, l1⟩
    rw [ha] at hs
    cases a with
    | failed e =>
      simp only [Option.some.injEq] at hs
      subst hs
      exact ⟨e, rfl⟩
    | conn c => exact ih _ _ _ s hs

/-! ## Lemmas on the route table as state -/

theorem register_routes (registered : List (Str × Closure)) (h : ClosureTable) :
    (h.register registered).routes = h.routes ++ registeredRoutes registered := by
  induction registered generalizing h with
  | nil => simp [ClosureTable.register, registeredRoutes]
  | cons p rest ih =>
    obtain ⟨pattern, handler⟩ := p
    simp only [ClosureTable.register]
    rw [ih]
    simp [ClosureTable.HandleFunc, registeredRoutes]

theorem findClosureRoute_some {rs : List ClosureRoute} {i j : Nat} {path : Str}
    {r : ClosureRoute} (h : findClosureRoute rs i path = some (j, r)) :
    i ≤ j ∧ rs[j - i]? = some r ∧ r.Pattern = path := by
  induction rs generalizing i with
  | nil => simp [findClosureRoute] at h
  | cons r0 t ih =>
    unfold findClosureRoute at h
    by_cases hp : r0.Pattern = path
    · rw [if_pos hp] at h
      simp only [Option.some.injEq, Prod.mk.injEq] at h
      obtain ⟨rfl, rfl⟩ := h
      simp [hp]
    · rw [if_neg hp] at h
      obtain ⟨h1, h2, h3⟩ := ih h
      have hj : j - i = (j - (i + 1)) + 1 := by omega
      exact ⟨by omega, by rw [hj]; simpa using h2, h3⟩

/-- On a table whose handlers register nothing the loop of lines 111-116 finds
what it finds on the plain table. -/
theorem findClosureRoute_closures (rs : List Route) (i : Nat) (path : Str) :
    findClosureRoute
        (rs.map (fun r => ({ Pattern := r.Pattern, Handler := Closure.plain r.Handler } :
          ClosureRoute))) i path
      = (findRoute rs i path).map
          (fun x => (x.1, ({ Pattern := x.2.Pattern, Handler := Closure.plain x.2.Handler } :
            ClosureRoute))) := by
  induction rs generalizing i with
  | nil => rfl
  | cons r t ih =>
    simp only [List.map_cons, findClosureRoute, findRoute]
    by_cases hp : r.Pattern = path
    · simp [hp]
    · rw [if_neg hp, if_neg hp, ih]

/-- With handlers that register nothing, the run with the table as state is
the run of `handleConnection`, and the table stays. -/
theorem closures_handleConnection (h : TCPHandler) (conn : Conn) :
    h.closures.handleConnection conn = (h.closures, h.handleConnection conn) := by
  unfold ClosureTable.handleConnection TCPHandler.handleConnection
  rcases hp : parseRequest conn with ⟨p, reader, tr⟩
  cases p with
  | ok req =>
    simp only [TCPHandler.closures]
    rw [findClosureRoute_closures]
    cases hr : findRoute h.routes 0 req.path with
    | none => rfl
    | some x => rfl
  | readError e => rfl
  | malformed l => rfl
  | allocPanic n => rfl
  | bodyError e => rfl

/-- The table after a run: the table before when no handler was called, else
the table before followed by the routes that the handler called has
registered. -/
theorem closureTable_after (h : ClosureTable) (conn : Conn) :
    ((∀ i, (h.handleConnection conn).2.exit ≠ Exit.handled i) ∧
      (h.handleConnection conn).1 = h) ∨
    (∃ (i : Nat) (route : ClosureRoute) (req : Request),
      (h.handleConnection conn).2.exit = Exit.handled i ∧
      (h.handleConnection conn).2.request = some req ∧
      h.routes[i]? = some route ∧ route.Pattern = req.path ∧
      (h.handleConnection conn).1.routes = h.routes ++
        registeredRoutes (route.Handler.act (parseRequest conn).2.1.rd).2 ∧
      (h.handleConnection conn).2.conn
        = (route.Handler.act (parseRequest conn).2.1.rd).1.Close) := by
  unfold ClosureTable.handleConnection
  rcases hp : parseRequest conn with ⟨p, reader, tr⟩
  cases p with
  | ok req =>
    simp only
    cases hr : findClosureRoute h.routes 0 req.path with
    | none => exact Or.inl ⟨(fun i hi => by cases hi), rfl⟩
    | some x =>
      obtain ⟨i, route⟩ := x
      obtain ⟨-, h2, h3⟩ := findClosureRoute_some hr
      refine Or.inr ⟨i, route, req, rfl, rfl, by simpa using h2, h3, ?_, rfl⟩
      simp only
      exact register_routes _ h
  | readError e => exact Or.inl ⟨(fun i hi => by cases hi), rfl⟩
  | malformed l => exact Or.inl ⟨(fun i hi => by cases hi), rfl⟩
  | allocPanic n => exact Or.inl ⟨(fun i hi => by cases hi), rfl⟩
  | bodyError e => exact Or.inl ⟨(fun i hi => by cases hi), rfl⟩

/-! ## The claims -/

/-- C1: when the input parses (parseRequest reaches line 103 with request req) and
some route matches, the path is the second field of the request line, the
route found is the first one in registration order whose Pattern equals the
path, handleConnection calls the handler of that route exactly once, calls no
other handler and writes no default response; and with the table of main the
input GET / HTTP/1.1 CRLF CRLF, however it is cut into segments of data and
whatever follows it, puts exactly the bytes of the 200 response on a fresh
connection. -/
theorem c1_first_matching_route_is_called (h : TCPHandler) (conn : Conn) (req : Request)
    (reader : Reader) (tr : List Event) (i : Nat) (route : Route)
    (hparse : parseRequest conn = (Parse.ok req, reader, tr))
    (hroute : findRoute h.routes 0 req.path = some (i, route)) :
    (∃ line rest, tr = Event.readString line none :: rest ∧ (Fields line).length = 3 ∧
      (Fields line)[1]? = some req.path) ∧
    (h.routes[i]? = some route ∧ route.Pattern = req.path ∧
      ∀ j r, j < i → h.routes[j]? = some r → r.Pattern ≠ req.path) ∧
    (h.handleConnection conn).exit = Exit.handled i ∧
    (h.handleConnection conn).trace = tr ++ [Event.call i, Event.close] ∧
    (h.handleConnection conn).trace.filter Event.isCall = [Event.call i] ∧
    (h.handleConnection conn).trace.filter Event.isWrite = [] ∧
    (h.handleConnection conn).conn = (route.Handler reader.rd).Close ∧
    reader.rd.written = conn.written ∧
    (∀ (c : Conn) (extra : Str), (∀ s ∈ c.chunks, s ≠ []) → c.written = [] →
      c.chunks.flatten = bytes "GET / HTTP/1.1\r\n\r\n" ++ extra →
      (mainHandler.handleConnection c).conn.written
        = bytes "HTTP/1.1 200 OK\r\nContent-Type: text/html\r\n\r\n<h1>Hello Dev</h1>") := by
  obtain ⟨f1, f2, f3, -, line, rest, version, f5, f6⟩ := parseRequest_ok_frame hparse
  obtain ⟨-, g2, g3, g4⟩ := findRoute_some hroute
  have hrun : h.handleConnection conn =
      { exit := Exit.handled i, request := some req, trace := tr ++ [Event.call i, Event.close],
        conn := (route.Handler reader.rd).Close } := by
    simp [TCPHandler.handleConnection, hparse, hroute]
  refine ⟨⟨line, rest, f5, by simp [f6], by simp [f6]⟩, ⟨by simpa using g2, g3, ?_⟩, ?_, ?_, ?_, ?_,
    ?_, f3, ?_⟩
  · intro j r hj hr
    exact g4 j r (by simpa using hj) hr
  · rw [hrun]
  · rw [hrun]
  · rw [hrun]; simp [List.filter_append, f1, List.filter_cons, Event.isCall]
  · rw [hrun]; simp [List.filter_append, f2, List.filter_cons, Event.isWrite]
  · rw [hrun]
  · intro c extra hne hw hflat
    have hsplit : bytes "GET / HTTP/1.1\r\n\r\n" = bytes "GET / HTTP/1.1\r" ++ LF :: CRLF := by
      decide
    obtain ⟨rd, hp, hw2, -⟩ :=
      parseRequest_bare c (bytes "GET / HTTP/1.1\r") extra (bytes "GET") (bytes "/")
        (bytes "HTTP/1.1") hne
        (by rw [hflat, hsplit]; simp) (by decide) (by decide)
    have hfind : findRoute mainHandler.routes 0 (bytes "/")
        = some (0, { Pattern := bytes "/", Handler := fun conn => conn.Write helloResponse }) := by
      rfl
    have hhello : helloResponse
        = bytes "HTTP/1.1 200 OK\r\nContent-Type: text/html\r\n\r\n<h1>Hello Dev</h1>" := rfl
    simp [TCPHandler.handleConnection, hp, hfind, Conn.Write, Conn.Close, hw2, hw, hhello]

/-- C1 at the request of the scenario: both hypotheses hold there, and the
run is the two line reads, the call of route 0 and the close. -/
theorem c1_first_matching_route_is_called_witness :
    parseRequest (connOf [bytes "GET / HTTP/1.1\r\n\r\n"]) =
      (Parse.ok { method := bytes "GET", path := bytes "/", headers := [], body := [] },
       { buf := [], err := none, rd := connOf [] },
       [Event.readString (bytes "GET / HTTP/1.1\r\n") none, Event.readString CRLF none]) ∧
    (mainHandler.handleConnection (connOf [bytes "GET / HTTP/1.1\r\n\r\n"])).trace =
      [Event.readString (bytes "GET / HTTP/1.1\r\n") none, Event.readString CRLF none,
       Event.call 0, Event.close] :=
  ⟨by decide,
   (c1_first_matching_route_is_called mainHandler (connOf [bytes "GET / HTTP/1.1\r\n\r\n"])
      { method := bytes "GET", path := bytes "/", headers := [], body := [] }
      { buf := [], err := none, rd := connOf [] }
      [Event.readString (bytes "GET / HTTP/1.1\r\n") none, Event.readString CRLF none]
      0 { Pattern := bytes "/", Handler := fun conn => conn.Write helloResponse }
      (by decide) (by rfl)).2.2.2.1⟩

/-- C2: when the input parses and the path equals the Pattern of no route,
handleConnection calls no handler and writes the default response, once, and
nothing else: the bytes written are those of the connection before followed by
exactly the 400 response; so for GET /missing with the table of main, however
the input is cut into segments of data and whatever follows it. -/
theorem c2_no_route_writes_default_response (h : TCPHandler) (conn : Conn) (req : Request)
    (reader : Reader) (tr : List Event)
    (hparse : parseRequest conn = (Parse.ok req, reader, tr))
    (hnone : ∀ r ∈ h.routes, r.Pattern ≠ req.path) :
    (h.handleConnection conn).exit = Exit.notFound ∧
    (h.handleConnection conn).trace = tr ++ [Event.write notFoundResponse, Event.close] ∧
    (h.handleConnection conn).trace.filter Event.isCall = [] ∧
    (h.handleConnection conn).trace.filter Event.isWrite = [Event.write notFoundResponse] ∧
    (h.handleConnection conn).conn.written = conn.written ++ notFoundResponse ∧
    notFoundResponse
      = bytes "HTTP/1.1 400 OK\r\nContent-Type: text/html\r\n\r\n<h1>Route Not Found</h1>" ∧
    (∀ (c : Conn) (extra : Str), (∀ s ∈ c.chunks, s ≠ []) → c.written = [] →
      c.chunks.flatten = bytes "GET /missing HTTP/1.1\r\n\r\n" ++ extra →
      (mainHandler.handleConnection c).conn.written
        = bytes "HTTP/1.1 400 OK\r\nContent-Type: text/html\r\n\r\n<h1>Route Not Found</h1>" ∧
      (mainHandler.handleConnection c).trace.filter Event.isCall = []) := by
  obtain ⟨f1, f2, f3, -⟩ := parseRequest_ok_frame hparse
  have hroute : findRoute h.routes 0 req.path = none := findRoute_none.mpr hnone
  have hrun : h.handleConnection conn =
      { exit := Exit.notFound, request := some req,
        trace := tr ++ [Event.write notFoundResponse, Event.close],
        conn := (reader.rd.Write notFoundResponse).Close } := by
    simp [TCPHandler.handleConnection, hparse, hroute]
  refine ⟨by rw [hrun], by rw [hrun], ?_, ?_, ?_, rfl, ?_⟩
  · rw [hrun]; simp [List.filter_append, f1, List.filter_cons, Event.isCall]
  · rw [hrun]; simp [List.filter_append, f2, List.filter_cons, Event.isWrite]
  · rw [hrun]; simp [Conn.Write, Conn.Close, f3]
  · intro c extra hne hw hflat
    have hsplit : bytes "GET /missing HTTP/1.1\r\n\r\n"
        = bytes "GET /missing HTTP/1.1\r" ++ LF :: CRLF := by
      decide
    obtain ⟨rd, hp, hw2, -⟩ :=
      parseRequest_bare c (bytes "GET /missing HTTP/1.1\r") extra (bytes "GET")
        (bytes "/missing") (bytes "HTTP/1.1") hne
        (by rw [hflat, hsplit]; simp) (by decide) (by decide)
    have hfind : findRoute mainHandler.routes 0 (bytes "/missing") = none :=
      findRoute_none.mpr (by decide)
    have hnf : notFoundResponse
        = bytes "HTTP/1.1 400 OK\r\nContent-Type: text/html\r\n\r\n<h1>Route Not Found</h1>" :=
      rfl
    simp [TCPHandler.handleConnection, hp, hfind, Conn.Write, Conn.Close, hw2, hw, hnf,
      List.filter_cons, Event.isCall]

/-- C2 at the request of the scenario: both hypotheses hold there, and the run
is the two line reads, the write of the default response and the close. -/
theorem c2_no_route_writes_default_response_witness :
    parseRequest (connOf [bytes "GET /missing HTTP/1.1\r\n\r\n"]) =
      (Parse.ok { method := bytes "GET", path := bytes "/missing", headers := [], body := [] },
       { buf := [], err := none, rd := connOf [] },
       [Event.readString (bytes "GET /missing HTTP/1.1\r\n") none, Event.readString CRLF none]) ∧
    (∀ r ∈ mainHandler.routes, r.Pattern ≠ bytes "/missing") ∧
    (mainHandler.handleConnection (connOf [bytes "GET /missing HTTP/1.1\r\n\r\n"])).trace =
      [Event.readString (bytes "GET /missing HTTP/1.1\r\n") none, Event.readString CRLF none,
       Event.write notFoundResponse, Event.close] :=
  ⟨by decide, by decide,
   (c2_no_route_writes_default_response mainHandler
      (connOf [bytes "GET /missing HTTP/1.1\r\n\r\n"])
      { method := bytes "GET", path := bytes "/missing", headers := [], body := [] }
      { buf := [], err := none, rd := connOf [] }
      [Event.readString (bytes "GET /missing HTTP/1.1\r\n") none, Event.readString CRLF none]
      (by decide) (by decide)).2.1⟩

/-- C3: when the first line read (up to a line feed, without error) has a
number of white-space separated fields other than three, handleConnection
writes nothing, calls no handler, makes no further read (no header line, no
body) and closes the connection: the run is that one read and the close. -/
theorem c3_malformed_request_line_is_silent (h : TCPHandler) (conn : Conn) (line : Str)
    (reader : Reader)
    (hread : (NewReader conn).ReadString LF = (line, none, reader))
    (hfields : (Fields line).length ≠ 3) :
    (h.handleConnection conn).exit = Exit.aborted (Parse.malformed line) ∧
    (h.handleConnection conn).trace = [Event.readString line none, Event.close] ∧
    (h.handleConnection conn).conn.written = conn.written ∧
    (h.handleConnection conn).conn.closed = conn.closed + 1 ∧
    (h.handleConnection conn).request = none := by
  obtain ⟨-, -, -, -, -, h6, h7⟩ := ReadString_spec hread rfl
  have hp : parseRequest conn =
      (Parse.malformed line, reader, [Event.readString line none]) := by
    unfold parseRequest
    rw [hread]
    simp only
    split
    · rename_i hf
      rw [hf] at hfields
      simp at hfields
    · rfl
  simp [TCPHandler.handleConnection, hp, Conn.Close, h6, h7, NewReader]

/-- C3 at request lines of two and of four fields. -/
theorem c3_malformed_request_line_is_silent_witness :
    (Fields (bytes "GET /\r\n")).length = 2 ∧
    (mainHandler.handleConnection (connOf [bytes "GET /\r\n\r\n"])).conn.written = [] ∧
    (Fields (bytes "GET / HTTP/1.1 x\r\n")).length = 4 ∧
    (mainHandler.handleConnection (connOf [bytes "GET / HTTP/1.1 x\r\n\r\n"])).conn.written = [] :=
  ⟨by decide,
   (c3_malformed_request_line_is_silent mainHandler (connOf [bytes "GET /\r\n\r\n"])
      (bytes "GET /\r\n") { buf := CRLF, err := none, rd := connOf [] }
      (by decide) (by decide)).2.2.1,
   by decide,
   (c3_malformed_request_line_is_silent mainHandler (connOf [bytes "GET / HTTP/1.1 x\r\n\r\n"])
      (bytes "GET / HTTP/1.1 x\r\n") { buf := CRLF, err := none, rd := connOf [] }
      (by decide) (by decide)).2.2.1⟩

/-- C4, the claim as stated fails: two streams with the same three-field
request line, hence the same path, one without headers and one that announces
a body of five bytes and ends; with the table of main the first is dispatched
to route 0 and the second is not dispatched at all (the body read fails, no
handler is called and nothing is written). -/
theorem c4_header_lines_can_prevent_dispatch :
    Fields (bytes "GET / HTTP/1.1\r\n") = [bytes "GET", bytes "/", bytes "HTTP/1.1"] ∧
    (mainHandler.handleConnection (connOf [bytes "GET / HTTP/1.1\r\n\r\n"])).trace =
      [Event.readString (bytes "GET / HTTP/1.1\r\n") none, Event.readString CRLF none,
       Event.call 0, Event.close] ∧
    (mainHandler.handleConnection
        (connOf [bytes "GET / HTTP/1.1\r\nContent-Length: 5\r\n\r\n"])).trace =
      [Event.readString (bytes "GET / HTTP/1.1\r\n") none,
       Event.readString (bytes "Content-Length: 5\r\n") none, Event.readString CRLF none,
       Event.read 5 [] (some Error.EOF), Event.close] ∧
    (mainHandler.handleConnection
        (connOf [bytes "GET / HTTP/1.1\r\nContent-Length: 5\r\n\r\n"])).exit =
      Exit.aborted (Parse.bodyError Error.EOF) ∧
    (mainHandler.handleConnection
        (connOf [bytes "GET / HTTP/1.1\r\nContent-Length: 5\r\n\r\n"])).conn.written = [] := by
  decide

/-- C4, amended: for two streams that both parse (each reaches line 103) with
the same path, handleConnection ends the same way on both, whatever the methods
and the headers: the same route's handler is called, or the default response
is written, and the runs end with the same dispatch event and the close. -/
theorem c4_dispatch_depends_on_path_only (h : TCPHandler) (c1 c2 : Conn) (req1 req2 : Request)
    (reader1 reader2 : Reader) (tr1 tr2 : List Event)
    (hparse1 : parseRequest c1 = (Parse.ok req1, reader1, tr1))
    (hparse2 : parseRequest c2 = (Parse.ok req2, reader2, tr2))
    (hpath : req1.path = req2.path) :
    (h.handleConnection c1).exit = (h.handleConnection c2).exit ∧
    (∃ d, (d.isCall = true ∨ d = Event.write notFoundResponse) ∧
      (h.handleConnection c1).trace = tr1 ++ [d, Event.close] ∧
      (h.handleConnection c2).trace = tr2 ++ [d, Event.close]) ∧
    (h.handleConnection c1).trace.filter Event.isCall
      = (h.handleConnection c2).trace.filter Event.isCall ∧
    (h.handleConnection c1).trace.filter Event.isWrite
      = (h.handleConnection c2).trace.filter Event.isWrite ∧
    (∀ i route, findRoute h.routes 0 req1.path = some (i, route) →
      (h.handleConnection c1).conn = (route.Handler reader1.rd).Close ∧
      (h.handleConnection c2).conn = (route.Handler reader2.rd).Close) := by
  obtain ⟨f1, f2, -⟩ := parseRequest_ok_frame hparse1
  obtain ⟨g1, g2, -⟩ := parseRequest_ok_frame hparse2
  cases hr : findRoute h.routes 0 req1.path with
  | none =>
    have hr2 : findRoute h.routes 0 req2.path = none := by rw [← hpath]; exact hr
    have e1 : h.handleConnection c1 =
        { exit := Exit.notFound, request := some req1,
          trace := tr1 ++ [Event.write notFoundResponse, Event.close],
          conn := (reader1.rd.Write notFoundResponse).Close } := by
      simp [TCPHandler.handleConnection, hparse1, hr]
    have e2 : h.handleConnection c2 =
        { exit := Exit.notFound, request := some req2,
          trace := tr2 ++ [Event.write notFoundResponse, Event.close],
          conn := (reader2.rd.Write notFoundResponse).Close } := by
      simp [TCPHandler.handleConnection, hparse2, hr2]
    rw [e1, e2]
    refine ⟨rfl, ⟨Event.write notFoundResponse, Or.inr rfl, rfl, rfl⟩, ?_, ?_, ?_⟩
    · simp [List.filter_append, f1, g1, List.filter_cons, Event.isCall]
    · simp [List.filter_append, f2, g2, List.filter_cons, Event.isWrite]
    · intro i route hi; cases hi
  | some p =>
    obtain ⟨i, route⟩ := p
    have hr2 : findRoute h.routes 0 req2.path = some (i, route) := by rw [← hpath]; exact hr
    have e1 : h.handleConnection c1 =
        { exit := Exit.handled i, request := some req1,
          trace := tr1 ++ [Event.call i, Event.close],
          conn := (route.Handler reader1.rd).Close } := by
      simp [TCPHandler.handleConnection, hparse1, hr]
    have e2 : h.handleConnection c2 =
        { exit := Exit.handled i, request := some req2,
          trace := tr2 ++ [Event.call i, Event.close],
          conn := (route.Handler reader2.rd).Close } := by
      simp [TCPHandler.handleConnection, hparse2, hr2]
    rw [e1, e2]
    refine ⟨rfl, ⟨Event.call i, Or.inl rfl, rfl, rfl⟩, ?_, ?_, ?_⟩
    · simp [List.filter_append, f1, g1, List.filter_cons, Event.isCall]
    · simp [List.filter_append, f2, g2, List.filter_cons, Event.isWrite]
    · intro i2 route2 hi
      simp only [Option.some.injEq, Prod.mk.injEq] at hi
      obtain ⟨rfl, rfl⟩ := hi
      exact ⟨rfl, rfl⟩

/-- C4 amended, at a GET without headers and a POST with a header and a body,
both for the path /: both runs end at route 0. -/
theorem c4_dispatch_depends_on_path_only_witness :
    (mainHandler.handleConnection (connOf [bytes "GET / HTTP/1.1\r\n\r\n"])).exit = Exit.handled 0 ∧
    (mainHandler.handleConnection
      (connOf [bytes "POST / HTTP/1.0\r\nContent-Length: 2\r\n\r\nhi"])).exit = Exit.handled 0 :=
  ⟨by decide,
   (c4_dispatch_depends_on_path_only mainHandler
      (connOf [bytes "GET / HTTP/1.1\r\n\r\n"])
      (connOf [bytes "POST / HTTP/1.0\r\nContent-Length: 2\r\n\r\nhi"])
      { method := bytes "GET", path := bytes "/", headers := [], body := [] }
      { method := bytes "POST", path := bytes "/",
        headers := [(bytes "Content-Length", bytes "2")], body := bytes "hi" }
      { buf := [], err := none, rd := connOf [] }
      { buf := [], err := none, rd := connOf [] }
      [Event.readString (bytes "GET / HTTP/1.1\r\n") none, Event.readString CRLF none]
      [Event.readString (bytes "POST / HTTP/1.0\r\n") none,
       Event.readString (bytes "Content-Length: 2\r\n") none, Event.readString CRLF none,
       Event.read 2 (bytes "hi") none]
      (by decide) (by decide) (by decide)).1.symm.trans (by decide)⟩

/-- C5: the header loop reads the lines ls before the line that ends it, and
the map it returns is the map built from all of them in order, one addHeader
per line (so a line without a colon does not stop the loop); a line with a
colon sets the key, the trimmed text before its first colon, to the trimmed
text after that colon (later colons kept) and changes no other key; a line
without a colon leaves the map as it is; a trimmed text is a piece of the
text with no white-space rune at either end, so the CRLF that ends the line
is not in the value; keys are kept as received, so a lower-case
content-length is not Content-Length. -/
theorem c5_header_lines_fill_the_map (b : Reader) (hb : b.err = none) :
    (∃ (ls : List Str) (last : Str) (e : Option Error),
      (readHeaders b).2.2 = lineReads ls ++ [Event.readString last e] ∧
      (∀ l ∈ ls, l ≠ CRLF) ∧ (e = none → last = CRLF) ∧
      (readHeaders b).2.1 = ls.foldl addHeader []) ∧
    (∀ (headers : Headers) (line : Str), colon ∈ line →
      ∃ before after, line = before ++ colon :: after ∧ colon ∉ before ∧
        mapGet (addHeader headers line) (TrimSpace before) = some (TrimSpace after) ∧
        ∀ k, k ≠ TrimSpace before → mapGet (addHeader headers line) k = mapGet headers k) ∧
    (∀ (headers : Headers) (line : Str), colon ∉ line → addHeader headers line = headers) ∧
    (∀ s : Str, (∃ l r, s = l ++ TrimSpace s ++ r) ∧ spaceWidth (TrimSpace s) = 0 ∧
      spaceWidthRev (TrimSpace s).reverse = 0) ∧
    addHeader [] (bytes "Host: a:80\r\n") = [(bytes "Host", bytes "a:80")] ∧
    mapGet (addHeader [] (bytes "content-length: 5\r\n")) (bytes "Content-Length") = none ∧
    mapGet (addHeader [] (bytes "content-length: 5\r\n")) (bytes "content-length")
      = some (bytes "5") := by
  refine ⟨?_, ?_, addHeader_of_no_colon, TrimSpace_spec, by decide, by decide, by decide⟩
  · obtain ⟨ls, last, e, g1, g2, -, g4, g5, -⟩ := readHeaders_spec b hb
    exact ⟨ls, last, e, g1, fun l hl => (g4 l hl).1, g5, g2⟩
  · intro headers line hc
    obtain ⟨before, after, h1, h2⟩ := split_first_colon hc
    refine ⟨before, after, h1, h2, ?_, ?_⟩
    · rw [h1, addHeader_of_colon headers before after h2, mapGet_mapSet]
      simp
    · intro k hk
      rw [h1, addHeader_of_colon headers before after h2, mapGet_mapSet, if_neg hk]

/-- C5 on a header block with a line without a colon between two header lines:
all three lines are read, and the map has the two entries. -/
theorem c5_header_lines_fill_the_map_witness :
    (NewReader (connOf [bytes "Host: a:80\r\nnonsense\r\nX-Y:  z \r\n\r\n"])).err = none ∧
    (readHeaders (NewReader (connOf [bytes "Host: a:80\r\nnonsense\r\nX-Y:  z \r\n\r\n"]))).2.1
      = [(bytes "Host", bytes "a:80"), (bytes "X-Y", bytes "z")] ∧
    ∃ (ls : List Str) (last : Str) (e : Option Error),
      (readHeaders (NewReader (connOf [bytes "Host: a:80\r\nnonsense\r\nX-Y:  z \r\n\r\n"]))).2.2
        = lineReads ls ++ [Event.readString last e] ∧
      (∀ l ∈ ls, l ≠ CRLF) ∧ (e = none → last = CRLF) ∧
      (readHeaders (NewReader (connOf [bytes "Host: a:80\r\nnonsense\r\nX-Y:  z \r\n\r\n"]))).2.1
        = ls.foldl addHeader [] :=
  ⟨rfl, by decide,
   (c5_header_lines_fill_the_map
      (NewReader (connOf [bytes "Host: a:80\r\nnonsense\r\nX-Y:  z \r\n\r\n"])) rfl).1⟩

theorem foldl_addHeader_keep (ls : List Str) (headers : Headers) (k : Str)
    (h : ∀ l ∈ ls, ∀ before after, colon ∉ before → l = before ++ colon :: after →
      TrimSpace before ≠ k) :
    mapGet (ls.foldl addHeader headers) k = mapGet headers k := by
  induction ls generalizing headers with
  | nil => rfl
  | cons l t ih =>
    rw [List.foldl_cons, ih _ (fun l2 hl2 => h l2 (List.mem_cons_of_mem _ hl2))]
    by_cases hc : colon ∈ l
    · obtain ⟨before, after, h1, h2⟩ := split_first_colon hc
      have hk := h l (List.mem_cons_self _ _) before after h2 h1
      rw [h1, addHeader_of_colon headers before after h2, mapGet_mapSet, if_neg (Ne.symm hk)]
    · rw [addHeader_of_no_colon headers l hc]

/-- C6: when the header lines read are ls1, then a line with a colon, then
lines ls2 none of which has the same trimmed name, the map after the loop
holds for that name the trimmed value of that line, the last occurrence,
whatever ls1 holds for it; if the name is Content-Length, the body length is
scanned from that value; so of two Content-Length lines, 3 then 5, the body
read is one of 5 bytes. -/
theorem c6_last_header_occurrence_wins (b : Reader) (hb : b.err = none) (ls1 ls2 : List Str)
    (before after last : Str) (e : Option Error)
    (hrun : (readHeaders b).2.2
      = lineReads (ls1 ++ (before ++ colon :: after) :: ls2) ++ [Event.readString last e])
    (hcolon : colon ∉ before)
    (hlater : ∀ l ∈ ls2, ∀ before2 after2, colon ∉ before2 → l = before2 ++ colon :: after2 →
      TrimSpace before2 ≠ TrimSpace before) :
    mapGet (readHeaders b).2.1 (TrimSpace before) = some (TrimSpace after) ∧
    (TrimSpace before = contentLengthKey →
      contentLength (readHeaders b).2.1 = some ((Sscanf (TrimSpace after)).getD 0)) ∧
    (mainHandler.handleConnection (connOf
      [bytes "POST / HTTP/1.1\r\nContent-Length: 3\r\nContent-Length: 5\r\n\r\nhello"])).trace =
      [Event.readString (bytes "POST / HTTP/1.1\r\n") none,
       Event.readString (bytes "Content-Length: 3\r\n") none,
       Event.readString (bytes "Content-Length: 5\r\n") none,
       Event.readString CRLF none, Event.read 5 (bytes "hello") none,
       Event.call 0, Event.close] := by
  obtain ⟨ls, last2, e2, g1, g2, -⟩ := readHeaders_spec b hb
  rw [hrun] at g1
  obtain ⟨hls, -⟩ := lineReads_append_inj g1
  have hget : mapGet (readHeaders b).2.1 (TrimSpace before) = some (TrimSpace after) := by
    rw [g2, ← hls, List.foldl_append, List.foldl_cons, foldl_addHeader_keep ls2 _ _ hlater,
      addHeader_of_colon _ before after hcolon, mapGet_mapSet]
    simp
  refine ⟨hget, ?_, by decide⟩
  intro hk
  rw [hk] at hget
  simp [contentLength, hget]

/-- C6 on a header block with Content-Length 3, then Content-Length 5, then a
Host line: the body length is 5. -/
theorem c6_last_header_occurrence_wins_witness :
    contentLength (readHeaders (NewReader (connOf
      [bytes "Content-Length: 3\r\nContent-Length: 5\r\nHost: x\r\n\r\nhello"]))).2.1 = some 5 :=
  ((c6_last_header_occurrence_wins
      (NewReader (connOf [bytes "Content-Length: 3\r\nContent-Length: 5\r\nHost: x\r\n\r\nhello"]))
      rfl [bytes "Content-Length: 3\r\n"] [bytes "Host: x\r\n"] (bytes "Content-Length")
      (bytes " 5\r\n") CRLF none (by decide) (by decide)
      (fun l hl before2 after2 hc hl2 => by
        have hl3 : l = bytes "Host" ++ colon :: bytes " x\r\n" := by
          rw [List.mem_singleton.mp hl]; decide
        rw [(first_colon_unique hc (by decide) (hl2.symm.trans hl3)).1]
        decide)).2.1 (by decide)).trans (by decide)

/-- C7: when the request line has three fields and the header map has no entry
with the key Content-Length, the request reaches dispatch with the empty body:
the run makes no Read of the reader, its line reads are the request line and
those of the header block, and it does not end in the parsing part; a
lower-case content-length does not count. -/
theorem c7_no_content_length_no_body_read (h : TCPHandler) (conn : Conn)
    (requestLine method path version : Str) (reader : Reader)
    (hread : (NewReader conn).ReadString LF = (requestLine, none, reader))
    (hfields : Fields requestLine = [method, path, version])
    (hnone : mapGet (readHeaders reader).2.1 contentLengthKey = none) :
    (h.handleConnection conn).request
      = some { method := method, path := path, headers := (readHeaders reader).2.1, body := [] } ∧
    (h.handleConnection conn).trace.filter Event.isRead = [] ∧
    (h.handleConnection conn).trace.filter Event.isReadString
      = Event.readString requestLine none :: (readHeaders reader).2.2 ∧
    (∀ p, (h.handleConnection conn).exit ≠ Exit.aborted p) ∧
    ((h.handleConnection conn).exit = Exit.notFound ∨
      ∃ i, (h.handleConnection conn).exit = Exit.handled i) ∧
    (mainHandler.handleConnection
        (connOf [bytes "GET / HTTP/1.1\r\ncontent-length: 5\r\n\r\nhello"])).request
      = some { method := bytes "GET", path := bytes "/",
               headers := [(bytes "content-length", bytes "5")], body := [] } ∧
    (mainHandler.handleConnection
        (connOf [bytes "GET / HTTP/1.1\r\ncontent-length: 5\r\n\r\nhello"])).trace
      = [Event.readString (bytes "GET / HTTP/1.1\r\n") none,
         Event.readString (bytes "content-length: 5\r\n") none, Event.readString CRLF none,
         Event.call 0, Event.close] := by
  obtain ⟨-, h2, -⟩ := ReadString_spec hread rfl
  obtain ⟨ls, last, e, g1, -⟩ := readHeaders_spec reader h2
  have hp : parseRequest conn =
      (Parse.ok { method := method, path := path, headers := (readHeaders reader).2.1, body := [] },
       (readHeaders reader).1, Event.readString requestLine none :: ((readHeaders reader).2.2 ++ [])) := by
    unfold parseRequest
    rw [hread]
    simp only
    rw [hfields]
    simp only
    rw [readBody_none _ (contentLength_none.mpr hnone)]
  rw [List.append_nil] at hp
  have hrs : ((readHeaders reader).2.2).filter Event.isReadString = (readHeaders reader).2.2 := by
    rw [g1]; simp [List.filter_append, filter_lineReads_isReadString, List.filter_cons,
      Event.isReadString]
  have hrd : ((readHeaders reader).2.2).filter Event.isRead = [] := by
    rw [g1]; simp [List.filter_append, filter_lineReads_isRead, List.filter_cons, Event.isRead]
  refine ⟨?_, ?_, ?_, ?_, ?_, by decide, by decide⟩
  all_goals
    cases hr : findRoute h.routes 0 path with
    | none =>
      simp [TCPHandler.handleConnection, hp, hr, List.filter_cons, List.filter_append,
        Event.isRead, Event.isReadString, hrs, hrd]
    | some p =>
      simp [TCPHandler.handleConnection, hp, hr, List.filter_cons, List.filter_append,
        Event.isRead, Event.isReadString, hrs, hrd]

/-- C7 at a request with a Host header and no Content-Length: the hypotheses
hold there and the parsed body is empty. -/
theorem c7_no_content_length_no_body_read_witness :
    (NewReader (connOf [bytes "GET / HTTP/1.1\r\nHost: x\r\n\r\nhello"])).ReadString LF
      = (bytes "GET / HTTP/1.1\r\n", none,
         { buf := bytes "Host: x\r\n\r\nhello", err := none, rd := connOf [] }) ∧
    (mainHandler.handleConnection
        (connOf [bytes "GET / HTTP/1.1\r\nHost: x\r\n\r\nhello"])).trace.filter Event.isRead = [] :=
  ⟨by decide,
   (c7_no_content_length_no_body_read mainHandler
      (connOf [bytes "GET / HTTP/1.1\r\nHost: x\r\n\r\nhello"])
      (bytes "GET / HTTP/1.1\r\n") (bytes "GET") (bytes "/") (bytes "HTTP/1.1")
      { buf := bytes "Host: x\r\n\r\nhello", err := none, rd := connOf [] }
      (by decide) (by decide) (by decide)).2.1⟩

/-- C8, the claim as stated fails: the value 12x is not a decimal integer
literal, yet the scan stores its leading number, so the body length is 12 and
the body read asks for 12 bytes. -/
theorem c8_leading_digits_are_the_length :
    Sscanf (bytes "12x") = some 12 ∧
    contentLength [(contentLengthKey, bytes "12x")] = some 12 ∧
    (mainHandler.handleConnection (connOf
      [bytes "POST / HTTP/1.1\r\nContent-Length: 12x\r\n\r\nhello world!"])).trace =
      [Event.readString (bytes "POST / HTTP/1.1\r\n") none,
       Event.readString (bytes "Content-Length: 12x\r\n") none,
       Event.readString CRLF none, Event.read 12 (bytes "hello world!") none,
       Event.call 0, Event.close] := by
  decide

/-- C8, amended: when the request line has three fields and the header map
holds for Content-Length a value that Sscanf does not scan, the body length is
0, the one body read is of 0 bytes and returns no error, the body is empty
and the run does not end in the parsing part; abc and the empty string are
such values, and so is every trimmed value that starts with a byte that is no
sign and no digit. -/
theorem c8_unscanned_value_gives_length_zero (h : TCPHandler) (conn : Conn)
    (requestLine method path version value : Str) (reader : Reader)
    (hread : (NewReader conn).ReadString LF = (requestLine, none, reader))
    (hfields : Fields requestLine = [method, path, version])
    (hvalue : mapGet (readHeaders reader).2.1 contentLengthKey = some value)
    (hscan : Sscanf value = none) :
    contentLength (readHeaders reader).2.1 = some 0 ∧
    (h.handleConnection conn).request
      = some { method := method, path := path, headers := (readHeaders reader).2.1, body := [] } ∧
    (h.handleConnection conn).trace.filter Event.isRead = [Event.read 0 [] none] ∧
    (∀ p, (h.handleConnection conn).exit ≠ Exit.aborted p) ∧
    ((h.handleConnection conn).exit = Exit.notFound ∨
      ∃ i, (h.handleConnection conn).exit = Exit.handled i) ∧
    Sscanf (bytes "abc") = none ∧ Sscanf [] = none ∧
    (∀ (raw : Str) (a : Byte) (t : Str), TrimSpace raw = a :: t → a ≠ 45 → a ≠ 43 →
      isDigit a = false → Sscanf (TrimSpace raw) = none) := by
  obtain ⟨-, h2, -⟩ := ReadString_spec hread rfl
  obtain ⟨ls, last, e, g1, -, -, -, -, -, g7, -⟩ := readHeaders_spec reader h2
  have hcl : contentLength (readHeaders reader).2.1 = some 0 := by
    simp [contentLength, hvalue, hscan]
  rcases hrd : (readHeaders reader).1.Read 0 with ⟨data, e0, reader1⟩
  obtain ⟨-, k2, -, k4, -⟩ := readerRead_spec hrd g7
  have hdata : data = [] := List.length_eq_zero.mp (Nat.le_zero.mp k2)
  have he0 : e0 = none := k4 rfl
  subst hdata he0
  have hb : readBody method path (readHeaders reader).2.1 (readHeaders reader).1 =
      (Parse.ok { method := method, path := path, headers := (readHeaders reader).2.1,
                  body := [] }, reader1, [Event.read 0 [] none]) := by
    have hm : make 0 = some [] := by decide
    unfold readBody
    rw [hcl]
    simp only
    rw [hm]
    simp only [List.length_nil]
    rw [hrd]
    rfl
  have hp : parseRequest conn =
      (Parse.ok { method := method, path := path, headers := (readHeaders reader).2.1, body := [] },
       reader1,
       Event.readString requestLine none :: ((readHeaders reader).2.2 ++ [Event.read 0 [] none])) := by
    unfold parseRequest
    rw [hread]
    simp only
    rw [hfields]
    simp only
    rw [hb]
  have hrdf : ((readHeaders reader).2.2).filter Event.isRead = [] := by
    rw [g1]; simp [List.filter_append, filter_lineReads_isRead, List.filter_cons, Event.isRead]
  refine ⟨hcl, ?_, ?_, ?_, ?_, by decide, by decide, fun raw a t hraw h1 h2 h3 => by
    rw [hraw]
    exact Sscanf_of_no_number a t (by rw [← hraw]; exact (TrimSpace_spec raw).2.1) h1 h2 h3⟩
  all_goals
    cases hr : findRoute h.routes 0 path with
    | none =>
      simp [TCPHandler.handleConnection, hp, hr, List.filter_cons, List.filter_append,
        Event.isRead, hrdf]
    | some p =>
      simp [TCPHandler.handleConnection, hp, hr, List.filter_cons, List.filter_append,
        Event.isRead, hrdf]

/-- C8 amended, at a request with Content-Length abc followed by five bytes:
the hypotheses hold there, and the body read is of 0 bytes. -/
theorem c8_unscanned_value_gives_length_zero_witness :
    mapGet (readHeaders { buf := bytes "Content-Length: abc\r\n\r\nhello", err := none,
                          rd := connOf [] }).2.1 contentLengthKey = some (bytes "abc") ∧
    Sscanf (bytes "abc") = none ∧
    (mainHandler.handleConnection
        (connOf [bytes "GET / HTTP/1.1\r\nContent-Length: abc\r\n\r\nhello"])).trace.filter
      Event.isRead = [Event.read 0 [] none] :=
  ⟨by decide, by decide,
   (c8_unscanned_value_gives_length_zero mainHandler
      (connOf [bytes "GET / HTTP/1.1\r\nContent-Length: abc\r\n\r\nhello"])
      (bytes "GET / HTTP/1.1\r\n") (bytes "GET") (bytes "/") (bytes "HTTP/1.1") (bytes "abc")
      { buf := bytes "Content-Length: abc\r\n\r\nhello", err := none, rd := connOf [] }
      (by decide) (by decide) (by decide) (by decide)).2.2.1⟩

/-- C9, the code at the failing input: for the value -1 the scan stores -1, the
allocation of the body buffer panics, and the run ends there, with the deferred
close only: no handler is called and nothing is written. -/
theorem c9_negative_content_length_panics :
    contentLength [(contentLengthKey, bytes "-1")] = some (-1) ∧
    make (-1) = none ∧
    (mainHandler.handleConnection
        (connOf [bytes "GET / HTTP/1.1\r\nContent-Length: -1\r\n\r\n"])).exit
      = Exit.aborted (Parse.allocPanic (-1)) ∧
    (mainHandler.handleConnection
        (connOf [bytes "GET / HTTP/1.1\r\nContent-Length: -1\r\n\r\n"])).trace
      = [Event.readString (bytes "GET / HTTP/1.1\r\n") none,
         Event.readString (bytes "Content-Length: -1\r\n") none, Event.readString CRLF none,
         Event.close] ∧
    contentLength [(contentLengthKey, bytes "+7")] = some 7 := by
  decide

/-- C10: when the input parses, the body length from Content-Length is n > 0,
the header loop was ended by the line CRLF and the body read delivered n
bytes, then the stream is the request line, the header lines ls, the line
CRLF, the body, and what is left unread, in this order: the body is exactly
the n bytes after the terminating CRLF, and the header map is the one built
from the header lines; so POST /x with Content-Length 5 and hello gives the
body hello and the one entry Content-Length 5. -/
theorem c10_body_is_the_bytes_after_the_header_block (conn : Conn) (req : Request)
    (reader : Reader) (tr : List Event) (n : Nat) (data : Str)
    (hparse : parseRequest conn = (Parse.ok req, reader, tr))
    (hlen : contentLength req.headers = some (n : Int)) (hpos : 0 < n)
    (hterm : Event.readString CRLF none ∈ tr)
    (hbody : Event.read n data none ∈ tr) (hfull : data.length = n) :
    (∃ (requestLine : Str) (ls : List Str),
      conn.chunks.flatten = requestLine ++ ls.flatten ++ CRLF ++ req.body ++ reader.remaining ∧
      IsLine requestLine ∧ (∀ l ∈ ls, IsLine l ∧ l ≠ CRLF) ∧
      req.headers = ls.foldl addHeader [] ∧
      tr = Event.readString requestLine none ::
        (lineReads ls ++ [Event.readString CRLF none, Event.read n data none])) ∧
    req.body = data ∧ req.body.length = n ∧
    (parseRequest (connOf [bytes "POST /x HTTP/1.1\r\nContent-Length: 5\r\n\r\nhello"])).1
      = Parse.ok { method := bytes "POST", path := bytes "/x",
                   headers := [(bytes "Content-Length", bytes "5")], body := bytes "hello" } := by
  obtain ⟨l0, version, b0, b1, ls, last, e, tr2, -, h2, h3, -, h5, h6, h7, -, h9, h10, h11, h12, -⟩ :=
    parseRequest_ok hparse
  obtain ⟨-, -, -, hc, -⟩ := readBody_ok h11 h9
  rcases hc with ⟨hc1, -⟩ | ⟨n2, data2, k1, -, -, k4, k5, k6, k7⟩
  · rw [hc1] at hlen; cases hlen
  · have hn : n2 = n := by
      rw [k1] at hlen
      simp only [Option.some.injEq] at hlen
      exact_mod_cast hlen
    subst hn k4
    have hdata : data = data2 := by
      rw [h12] at hbody
      simp only [List.mem_cons, List.mem_append, List.mem_singleton, List.not_mem_nil,
        or_false] at hbody
      rcases hbody with hb | (hb | hb) | hb
      · cases hb
      · obtain ⟨l, -, hl⟩ := mem_lineReads hb
        cases hl
      · cases hb
      · simp only [Event.read.injEq] at hb
        exact hb.2.1
    subst hdata
    have hlast : last = CRLF ∧ e = none := by
      rw [h12] at hterm
      simp only [List.mem_cons, List.mem_append, List.mem_singleton, List.not_mem_nil,
        or_false] at hterm
      rcases hterm with ht | (ht | ht) | ht
      · simp only [Event.readString.injEq] at ht
        rw [← ht.1] at h2
        have : Fields CRLF = [] := by decide
        rw [this] at h2
        cases h2
      · obtain ⟨l, hl, hl2⟩ := mem_lineReads ht
        simp only [Event.readString.injEq] at hl2
        exact absurd hl2.1.symm (h6 l hl).1
      · simp only [Event.readString.injEq] at ht
        exact ⟨ht.1.symm, ht.2.symm⟩
      · cases ht
    obtain ⟨rfl, rfl⟩ := hlast
    have hbodyeq : req.body = data := by
      rw [k5, hfull]; simp
    refine ⟨⟨l0, ls, ?_, h3, fun l hl => ⟨(h6 l hl).2, (h6 l hl).1⟩, h5, ?_⟩, hbodyeq,
      by rw [hbodyeq, hfull], by decide⟩
    · rw [← h10, ← k6, hbodyeq]
      simp
    · rw [h12]; simp

/-- C10 at the request of the scenario, followed by two more bytes: the
hypotheses hold there, and the body is hello. -/
theorem c10_body_is_the_bytes_after_the_header_block_witness :
    parseRequest (connOf [bytes "POST /x HTTP/1.1\r\nContent-Length: 5\r\n\r\nhelloXY"]) =
      (Parse.ok { method := bytes "POST", path := bytes "/x",
                  headers := [(bytes "Content-Length", bytes "5")], body := bytes "hello" },
       { buf := bytes "XY", err := none, rd := connOf [] },
       [Event.readString (bytes "POST /x HTTP/1.1\r\n") none,
        Event.readString (bytes "Content-Length: 5\r\n") none, Event.readString CRLF none,
        Event.read 5 (bytes "hello") none]) ∧
    ∃ (requestLine : Str) (ls : List Str),
      bytes "POST /x HTTP/1.1\r\nContent-Length: 5\r\n\r\nhelloXY"
        = requestLine ++ ls.flatten ++ CRLF ++ bytes "hello" ++ bytes "XY" ∧
      ls.foldl addHeader [] = [(bytes "Content-Length", bytes "5")] :=
  ⟨by decide,
   match (c10_body_is_the_bytes_after_the_header_block
      (connOf [bytes "POST /x HTTP/1.1\r\nContent-Length: 5\r\n\r\nhelloXY"])
      { method := bytes "POST", path := bytes "/x",
        headers := [(bytes "Content-Length", bytes "5")], body := bytes "hello" }
      { buf := bytes "XY", err := none, rd := connOf [] }
      [Event.readString (bytes "POST /x HTTP/1.1\r\n") none,
       Event.readString (bytes "Content-Length: 5\r\n") none, Event.readString CRLF none,
       Event.read 5 (bytes "hello") none]
      5 (bytes "hello") (by decide) (by decide) (by decide) (by decide) (by decide)
      (by decide)).1 with
   | ⟨requestLine, ls, h1, _, _, h4, _⟩ =>
     ⟨requestLine, ls, by simpa [connOf, Reader.remaining] using h1, h4.symm⟩⟩

/-- C11, the claim as stated fails: a header block that holds Content-Length 5
and is ended by the end of the stream instead of CRLF; the header loop ends
without a failure, but the body read then finds nothing and fails, so the
request is not dispatched although its path is registered. -/
theorem c11_headers_ended_by_eof_then_body_fails :
    (mainHandler.handleConnection
        (connOf [bytes "GET / HTTP/1.1\r\nContent-Length: 5\r\n"])).trace =
      [Event.readString (bytes "GET / HTTP/1.1\r\n") none,
       Event.readString (bytes "Content-Length: 5\r\n") none,
       Event.readString [] (some Error.EOF),
       Event.read 5 [] (some Error.EOF), Event.close] ∧
    (mainHandler.handleConnection
        (connOf [bytes "GET / HTTP/1.1\r\nContent-Length: 5\r\n"])).exit =
      Exit.aborted (Parse.bodyError Error.EOF) ∧
    (mainHandler.handleConnection
        (connOf [bytes "GET / HTTP/1.1\r\nContent-Length: 5\r\n"])).conn.written = [] := by
  decide

/-- C11, amended: the header loop reads lines ls that are complete and are not
CRLF, and ends at the line CRLF or at a read error, never at another line; at
any point of the loop a bare line feed is read as a line and the loop goes on
with the same map; however the loop ended, by CRLF or by an error, the map is
the one built from ls, and when that map asks for no body or for one of 0
bytes the request reaches the route loop with it. -/
theorem c11_header_loop_ends_at_crlf_or_error (h : TCPHandler) (conn : Conn)
    (requestLine method path version : Str) (reader : Reader)
    (hread : (NewReader conn).ReadString LF = (requestLine, none, reader))
    (hfields : Fields requestLine = [method, path, version]) :
    (∃ (ls : List Str) (last : Str) (e : Option Error),
      (readHeaders reader).2.2 = lineReads ls ++ [Event.readString last e] ∧
      (∀ l ∈ ls, l ≠ CRLF ∧ IsLine l) ∧ (e = none → last = CRLF) ∧
      (readHeaders reader).2.1 = ls.foldl addHeader [] ∧
      ((contentLength (ls.foldl addHeader []) = none ∨
          contentLength (ls.foldl addHeader []) = some 0) →
        (h.handleConnection conn).request
          = some { method := method, path := path, headers := ls.foldl addHeader [],
                   body := [] } ∧
        ((h.handleConnection conn).exit = Exit.notFound ∨
          ∃ i, (h.handleConnection conn).exit = Exit.handled i))) ∧
    (∀ (f : Nat) (b b1 : Reader) (hs : Headers), b.err = none → b.remaining.length < f →
      b.ReadString LF = ([LF], none, b1) →
      headerLoop f b hs =
        ((headerLoop f b1 hs).1, (headerLoop f b1 hs).2.1,
         Event.readString [LF] none :: (headerLoop f b1 hs).2.2)) ∧
    (mainHandler.handleConnection
        (connOf [bytes "GET / HTTP/1.1\r\n\nHost: x\r\n\r\n"])).request
      = some { method := bytes "GET", path := bytes "/",
               headers := [(bytes "Host", bytes "x")], body := [] } ∧
    (mainHandler.handleConnection (connOf [bytes "GET / HTTP/1.1\r\nHost: x\r\n"])).trace
      = [Event.readString (bytes "GET / HTTP/1.1\r\n") none,
         Event.readString (bytes "Host: x\r\n") none, Event.readString [] (some Error.EOF),
         Event.call 0, Event.close] := by
  obtain ⟨-, h2, -⟩ := ReadString_spec hread rfl
  obtain ⟨ls, last, e, g1, g2, -, g4, g5, -⟩ := readHeaders_spec reader h2
  refine ⟨⟨ls, last, e, g1, g4, g5, g2, ?_⟩, ?_, by decide, by decide⟩
  · intro hcl
    rw [← g2] at hcl ⊢
    obtain ⟨d1, d2, -⟩ := dispatched_without_body h conn requestLine method path version reader
      hread hfields hcl
    exact ⟨d1, d2⟩
  · intro f b b1 hs hb hf hrd
    have := headerLoop_step f b b1 hs [LF] hb hf hrd (by decide)
    rw [addHeader_of_no_colon hs [LF] (by decide)] at this
    exact this

/-- C11 amended, at a request whose header block is ended by the end of the
stream after a Host line: the hypotheses hold there and the request reaches
the route loop with the Host entry. -/
theorem c11_header_loop_ends_at_crlf_or_error_witness :
    (NewReader (connOf [bytes "GET / HTTP/1.1\r\nHost: x\r\n"])).ReadString LF
      = (bytes "GET / HTTP/1.1\r\n", none,
         { buf := bytes "Host: x\r\n", err := none, rd := connOf [] }) ∧
    ∃ (ls : List Str) (last : Str) (e : Option Error),
      (readHeaders { buf := bytes "Host: x\r\n", err := none, rd := connOf [] }).2.2
        = lineReads ls ++ [Event.readString last e] ∧
      (∀ l ∈ ls, l ≠ CRLF ∧ IsLine l) :=
  ⟨by decide,
   match (c11_header_loop_ends_at_crlf_or_error mainHandler
      (connOf [bytes "GET / HTTP/1.1\r\nHost: x\r\n"])
      (bytes "GET / HTTP/1.1\r\n") (bytes "GET") (bytes "/") (bytes "HTTP/1.1")
      { buf := bytes "Host: x\r\n", err := none, rd := connOf [] }
      (by decide) (by decide)).1 with
   | ⟨ls, last, e, h1, h2, _⟩ => ⟨ls, last, e, h1, h2⟩⟩

/-- C12: when the request line has three fields, the header map gives the
body length n and the one body read returns an error, handleConnection ends
there: it calls no handler and writes nothing, whatever the route table, and
the run is the line reads, the failed read and the close; so for a request
for the registered path / that announces 5 bytes and ends. -/
theorem c12_body_read_error_is_silent (h : TCPHandler) (conn : Conn)
    (requestLine method path version : Str) (reader reader1 : Reader) (n : Nat) (data : Str)
    (e : Error)
    (hread : (NewReader conn).ReadString LF = (requestLine, none, reader))
    (hfields : Fields requestLine = [method, path, version])
    (hlen : contentLength (readHeaders reader).2.1 = some (n : Int))
    (hn : n ≤ maxAlloc)
    (hbody : (readHeaders reader).1.Read n = (data, some e, reader1)) :
    (h.handleConnection conn).exit = Exit.aborted (Parse.bodyError e) ∧
    (h.handleConnection conn).trace
      = Event.readString requestLine none ::
          ((readHeaders reader).2.2 ++ [Event.read n data (some e), Event.close]) ∧
    (h.handleConnection conn).trace.filter Event.isCall = [] ∧
    (h.handleConnection conn).trace.filter Event.isWrite = [] ∧
    (h.handleConnection conn).conn.written = conn.written ∧
    (h.handleConnection conn).conn.closed = conn.closed + 1 ∧
    (h.handleConnection conn).request = none ∧
    (∃ x, findRoute mainHandler.routes 0 (bytes "/") = some x) ∧
    (mainHandler.handleConnection
        (connOf [bytes "GET / HTTP/1.1\r\nContent-Length: 5\r\n\r\n"])).conn.written = [] ∧
    (mainHandler.handleConnection
        (connOf [bytes "GET / HTTP/1.1\r\nContent-Length: 5\r\n\r\n"])).trace.filter
      Event.isCall = [] := by
  have hm : make (n : Int) = some (List.replicate n 0) := by
    unfold make
    rw [if_neg]
    · simp
    · simp only [not_or, not_lt]
      exact ⟨Int.natCast_nonneg n, by exact_mod_cast hn⟩
  have hb : readBody method path (readHeaders reader).2.1 (readHeaders reader).1 =
      (Parse.bodyError e, reader1, [Event.read n data (some e)]) := by
    unfold readBody
    rw [hlen]
    simp only
    rw [hm]
    simp only [List.length_replicate]
    rw [hbody]
  have hp : parseRequest conn =
      (Parse.bodyError e, reader1,
       Event.readString requestLine none ::
         ((readHeaders reader).2.2 ++ [Event.read n data (some e)])) := by
    unfold parseRequest
    rw [hread]
    simp only
    rw [hfields]
    simp only
    rw [hb]
  have htr := parseRequest_trace conn
  have hfr := parseRequest_frame conn
  rw [hp] at htr hfr
  simp only at htr hfr
  have hrun : h.handleConnection conn =
      { exit := Exit.aborted (Parse.bodyError e), request := none,
        trace := Event.readString requestLine none ::
          ((readHeaders reader).2.2 ++ [Event.read n data (some e)]) ++ [Event.close],
        conn := reader1.rd.Close } := by
    simp [TCPHandler.handleConnection, hp]
  have hcall := filter_eq_nil_of_reads htr isCall_of_read
  have hwrite := filter_eq_nil_of_reads htr isWrite_of_read
  refine ⟨by rw [hrun], by rw [hrun]; simp, ?_, ?_, by rw [hrun]; exact hfr.1,
    by rw [hrun]; simp [Conn.Close, hfr.2], by rw [hrun], ⟨_, rfl⟩, by decide, by decide⟩
  · rw [hrun]
    simp only
    rw [List.filter_append, hcall]
    simp [Event.isCall]
  · rw [hrun]
    simp only
    rw [List.filter_append, hwrite]
    simp [Event.isWrite]

/-- C12 at a request for / that announces 5 bytes and ends after the header
block: the hypotheses hold there and the run ends with the body error. -/
theorem c12_body_read_error_is_silent_witness :
    (readHeaders { buf := bytes "Content-Length: 5\r\n\r\n", err := none, rd := connOf [] }).1.Read 5
      = ([], some Error.EOF, { buf := [], err := none, rd := connOf [] }) ∧
    (mainHandler.handleConnection
        (connOf [bytes "GET / HTTP/1.1\r\nContent-Length: 5\r\n\r\n"])).exit
      = Exit.aborted (Parse.bodyError Error.EOF) :=
  ⟨by decide,
   (c12_body_read_error_is_silent mainHandler
      (connOf [bytes "GET / HTTP/1.1\r\nContent-Length: 5\r\n\r\n"])
      (bytes "GET / HTTP/1.1\r\n") (bytes "GET") (bytes "/") (bytes "HTTP/1.1")
      { buf := bytes "Content-Length: 5\r\n\r\n", err := none, rd := connOf [] }
      { buf := [], err := none, rd := connOf [] } 5 [] Error.EOF
      (by decide) (by decide) (by decide) (by decide) (by decide)).1⟩

/-- C13: HandleFunc puts one route, with the pattern as given, at the end of the
list and keeps the routes before it in place; a path that a route matched
before is matched by the same route, at the same index, after; a path that no
route matched is matched after exactly when it equals the new pattern, and
then by the new route; any pattern is taken, the empty one and one already
registered included, and of two routes with one pattern the first registered
is the one found. -/
theorem c13_registration_appends (h : TCPHandler) (pattern : Str) (handler : HandlerFunc)
    (path : Str) :
    (h.HandleFunc pattern handler).routes
      = h.routes ++ [{ Pattern := pattern, Handler := handler }] ∧
    (h.HandleFunc pattern handler).routes.length = h.routes.length + 1 ∧
    (∀ (i : Nat) (r : Route), h.routes[i]? = some r →
      (h.HandleFunc pattern handler).routes[i]? = some r) ∧
    (∀ x, findRoute h.routes 0 path = some x →
      findRoute (h.HandleFunc pattern handler).routes 0 path = some x) ∧
    (findRoute h.routes 0 path = none →
      ((∃ x, findRoute (h.HandleFunc pattern handler).routes 0 path = some x) ↔ pattern = path) ∧
      (pattern = path → findRoute (h.HandleFunc pattern handler).routes 0 path
        = some (h.routes.length, { Pattern := pattern, Handler := handler }))) ∧
    (NewTCPHandler.HandleFunc [] handler).routes.length = 1 ∧
    (∃ r, findRoute (mainHandler.HandleFunc (bytes "/") handler).routes 0 (bytes "/")
      = some (0, r) ∧ mainHandler.routes[0]? = some r) := by
  have happ := findRoute_append h.routes { Pattern := pattern, Handler := handler } 0 path
  refine ⟨rfl, by simp [TCPHandler.HandleFunc], ?_, ?_, ?_, rfl, ⟨_, rfl, rfl⟩⟩
  · intro i r hi
    have hlt : i < h.routes.length := by
      by_contra hge
      rw [List.getElem?_eq_none (by omega)] at hi
      cases hi
    simp only [TCPHandler.HandleFunc]
    rw [List.getElem?_append_left hlt]
    exact hi
  · intro x hx
    simp only [TCPHandler.HandleFunc]
    rw [happ, hx]
  · intro hnone
    simp only [TCPHandler.HandleFunc]
    rw [happ, hnone]
    simp only [Nat.zero_add]
    by_cases hp : pattern = path
    · simp [hp]
    · simp [hp]

/-- C13 at the table of main and the new pattern /x: the path / is still
matched by route 0, and the path /x, matched by nothing before, is matched by
the new route at index 1. -/
theorem c13_registration_appends_witness :
    (∃ x, findRoute mainHandler.routes 0 (bytes "/") = some x ∧
      findRoute (mainHandler.HandleFunc (bytes "/x") (fun c => c)).routes 0 (bytes "/") = some x) ∧
    findRoute mainHandler.routes 0 (bytes "/x") = none ∧
    findRoute (mainHandler.HandleFunc (bytes "/x") (fun c => c)).routes 0 (bytes "/x")
      = some (1, { Pattern := bytes "/x", Handler := fun c => c }) :=
  ⟨⟨_, rfl, (c13_registration_appends mainHandler (bytes "/x") (fun c => c) (bytes "/")).2.2.2.1
      _ rfl⟩,
   findRoute_none.mpr (by decide),
   ((c13_registration_appends mainHandler (bytes "/x") (fun c => c) (bytes "/x")).2.2.2.2.1
      (findRoute_none.mpr (by decide))).2 rfl⟩

/-- C14: every run of handleConnection, whatever way it ends, is some events
without a close followed by the close: the connection is closed exactly once
by handleConnection, after every read, handler call and write of the run; the
connection afterwards is a closed one, and unless a handler was called its
count of closes is one more than before. -/
theorem c14_close_exactly_once_and_last (h : TCPHandler) (conn : Conn) :
    (∃ init, (h.handleConnection conn).trace = init ++ [Event.close] ∧
      init.filter Event.isClose = []) ∧
    (h.handleConnection conn).trace.filter Event.isClose = [Event.close] ∧
    (h.handleConnection conn).trace.getLast? = some Event.close ∧
    (∃ c : Conn, (h.handleConnection conn).conn = c.Close) ∧
    ((∃ i, (h.handleConnection conn).exit = Exit.handled i) ∨
      (h.handleConnection conn).conn.closed = conn.closed + 1) := by
  obtain ⟨mid, hmid, hcases⟩ := handleConnection_trace h conn
  have hparse := filter_eq_nil_of_reads (parseRequest_trace conn) isClose_of_read
  have hmidc : mid.filter Event.isClose = [] := by
    rcases hcases with rfl | ⟨i, rfl⟩ | rfl <;> simp [Event.isClose]
  have hinit : ((parseRequest conn).2.2 ++ mid).filter Event.isClose = [] := by
    rw [List.filter_append, hparse, hmidc]; rfl
  refine ⟨⟨(parseRequest conn).2.2 ++ mid, hmid, hinit⟩, ?_, ?_, ?_, ?_⟩
  · rw [hmid, List.filter_append, hinit]
    simp [Event.isClose]
  · rw [hmid]
    simp
  · unfold TCPHandler.handleConnection
    rcases hp : parseRequest conn with ⟨p, reader, tr⟩
    cases p with
    | ok req =>
      simp only
      cases hr : findRoute h.routes 0 req.path with
      | none => exact ⟨_, rfl⟩
      | some x => exact ⟨_, rfl⟩
    | readError e => exact ⟨_, rfl⟩
    | malformed l => exact ⟨_, rfl⟩
    | allocPanic n => exact ⟨_, rfl⟩
    | bodyError e => exact ⟨_, rfl⟩
  · have hfr := parseRequest_frame conn
    unfold TCPHandler.handleConnection
    rcases hp : parseRequest conn with ⟨p, reader, tr⟩
    rw [hp] at hfr
    simp only at hfr
    cases p with
    | ok req =>
      simp only
      cases hr : findRoute h.routes 0 req.path with
      | none => exact Or.inr (by simp [Conn.Close, Conn.Write, hfr.2])
      | some x => exact Or.inl ⟨x.1, rfl⟩
    | readError e => exact Or.inr (by simp [Conn.Close, hfr.2])
    | malformed l => exact Or.inr (by simp [Conn.Close, hfr.2])
    | allocPanic n => exact Or.inr (by simp [Conn.Close, hfr.2])
    | bodyError e => exact Or.inr (by simp [Conn.Close, hfr.2])

/-- C15: with a listener whose next calls of Accept give the connections cs,
in order, and then fail with e, ServeTCP returns as soon as it has had one turn
more than there are connections: it returns exactly e, never nil, has started
one task per connection of cs, in order, each running handleConnection on its
connection, whatever those runs do, and has closed the listener once; with
fewer turns it has not returned, and with a listener that never fails it never
returns. -/
theorem c15_serve_returns_first_accept_error (h : TCPHandler) (l : Listener) (cs : List Conn)
    (e : Error) (fuel : Nat)
    (hconn : ∀ (i : Nat) (c : Conn), cs[i]? = some c → l.accepts (l.calls + i) = Accepted.conn c)
    (hfail : l.accepts (l.calls + cs.length) = Accepted.failed e) :
    (cs.length < fuel → ∃ s, h.ServeTCP fuel l = some s ∧ s.ret = some e ∧ s.started = cs ∧
      s.runs = cs.map h.handleConnection ∧ s.listener.calls = l.calls + cs.length + 1 ∧
      s.listener.closed = l.closed + 1) ∧
    (fuel ≤ cs.length → h.ServeTCP fuel l = none) ∧
    (∀ l2 : Listener, (∀ i, ∃ c, l2.accepts (l2.calls + i) = Accepted.conn c) →
      ∀ fuel2, h.ServeTCP fuel2 l2 = none) ∧
    (∀ (fuel2 : Nat) (l2 : Listener) (s : Served), h.ServeTCP fuel2 l2 = some s → s.ret ≠ none) := by
  refine ⟨?_, ?_, ?_, ?_⟩
  · intro hfuel
    have := serveLoop_returns h cs.length fuel l [] [] e cs rfl hconn hfail hfuel
    exact ⟨_, this, rfl, by simp, by simp, rfl, rfl⟩
  · intro hfuel
    apply serveLoop_running
    intro i hi
    have hlt : i < cs.length := by omega
    exact ⟨cs[i], hconn i cs[i] (List.getElem?_eq_getElem hlt)⟩
  · intro l2 hl2 fuel2
    apply serveLoop_running
    intro i _
    exact hl2 i
  · intro fuel2 l2 s hs
    obtain ⟨e2, he2⟩ := serveLoop_ret h fuel2 l2 [] [] s hs
    rw [he2]
    simp

/-- C15 at a listener that gives a connection with a malformed request line,
one whose body read fails and one with a good request, and then fails with
EOF: ServeTCP returns EOF after it has started the three tasks, whose runs end
as malformed, as a body error and at route 0. -/
theorem c15_serve_returns_first_accept_error_witness :
    ∃ s, mainHandler.ServeTCP 4
        (listenerOf [connOf [bytes "GET /\r\n"],
                     connOf [bytes "GET / HTTP/1.1\r\nContent-Length: 5\r\n\r\n"],
                     connOf [bytes "GET / HTTP/1.1\r\n\r\n"]] Error.EOF) = some s ∧
      s.ret = some Error.EOF ∧
      s.runs.map (fun r => r.exit) =
        [Exit.aborted (Parse.malformed (bytes "GET /\r\n")),
         Exit.aborted (Parse.bodyError Error.EOF), Exit.handled 0] :=
  match (c15_serve_returns_first_accept_error mainHandler
      (listenerOf [connOf [bytes "GET /\r\n"],
                   connOf [bytes "GET / HTTP/1.1\r\nContent-Length: 5\r\n\r\n"],
                   connOf [bytes "GET / HTTP/1.1\r\n\r\n"]] Error.EOF)
      [connOf [bytes "GET /\r\n"],
       connOf [bytes "GET / HTTP/1.1\r\nContent-Length: 5\r\n\r\n"],
       connOf [bytes "GET / HTTP/1.1\r\n\r\n"]] Error.EOF 4
      (fun i c hi => by simp [listenerOf, hi]) (by simp [listenerOf])).1 (by decide) with
  | ⟨s, h1, h2, _, h4, _⟩ => ⟨s, h1, h2, by rw [h4]; decide⟩

/-- C16, the claim as stated fails: the handler for / captures the table and
registers the pattern /new when it is called; before the run for GET / the
table has the one route /, after it the two routes / and /new, and the path
/new, found by no route before, is found after. -/
theorem c16_handler_registers_during_the_run :
    registeringTable.routes.map (fun r => r.Pattern) = [bytes "/"] ∧
    (registeringTable.handleConnection
        (connOf [bytes "GET / HTTP/1.1\r\n\r\n"])).1.routes.map (fun r => r.Pattern)
      = [bytes "/", bytes "/new"] ∧
    (registeringTable.handleConnection (connOf [bytes "GET / HTTP/1.1\r\n\r\n"])).2.exit
      = Exit.handled 0 ∧
    (registeringTable.handleConnection (connOf [bytes "GET / HTTP/1.1\r\n\r\n"])).2.conn.written
      = helloResponse ∧
    (findClosureRoute registeringTable.routes 0 (bytes "/new")).isSome = false ∧
    (findClosureRoute (registeringTable.handleConnection
        (connOf [bytes "GET / HTTP/1.1\r\n\r\n"])).1.routes 0 (bytes "/new")).isSome = true := by
  decide

/-- C16, amended: with the route table as state and handlers that can reach
it, a run that ends in the parsing part or with the default response leaves
the table as it was; a run that calls the handler of route i leaves the table
before followed by the routes that this handler has registered, so the routes
before keep their place on every exit path, and the table is unchanged when
no handler of the table registers anything; for such a table the run is the
run of handleConnection. -/
theorem c16_table_changes_only_by_registrations (h : ClosureTable) (conn : Conn) :
    (∀ p, (h.handleConnection conn).2.exit = Exit.aborted p →
      (h.handleConnection conn).1 = h) ∧
    ((h.handleConnection conn).2.exit = Exit.notFound → (h.handleConnection conn).1 = h) ∧
    (∀ i, (h.handleConnection conn).2.exit = Exit.handled i →
      ∃ route, h.routes[i]? = some route ∧
        (h.handleConnection conn).1.routes = h.routes ++
          registeredRoutes (route.Handler.act (parseRequest conn).2.1.rd).2) ∧
    (∃ added, (h.handleConnection conn).1.routes = h.routes ++ added) ∧
    ((∀ r ∈ h.routes, ∀ c, (r.Handler.act c).2 = []) → (h.handleConnection conn).1 = h) ∧
    (∀ g : TCPHandler, g.closures.handleConnection conn = (g.closures, g.handleConnection conn)) := by
  have key := closureTable_after h conn
  refine ⟨?_, ?_, ?_, ?_, ?_, fun g => closures_handleConnection g conn⟩
  · intro p hp
    rcases key with ⟨-, k⟩ | ⟨i, route, req, k, -⟩
    · exact k
    · rw [hp] at k; cases k
  · intro hp
    rcases key with ⟨-, k⟩ | ⟨i, route, req, k, -⟩
    · exact k
    · rw [hp] at k; cases k
  · intro i hi
    rcases key with ⟨k, -⟩ | ⟨j, route, req, k1, -, k3, -, k5, -⟩
    · exact absurd hi (k i)
    · rw [hi] at k1
      simp only [Exit.handled.injEq] at k1
      subst k1
      exact ⟨route, k3, k5⟩
  · rcases key with ⟨-, k⟩ | ⟨j, route, req, -, -, -, -, k5, -⟩
    · exact ⟨[], by rw [k]; simp⟩
    · exact ⟨_, k5⟩
  · intro hplain
    rcases key with ⟨-, k⟩ | ⟨j, route, req, -, -, k3, -, k5, -⟩
    · exact k
    · have hmem : route ∈ h.routes := List.getElem?_mem k3
      rw [hplain route hmem] at k5
      have hroutes : (h.handleConnection conn).1.routes = h.routes := by
        rw [k5]; simp [registeredRoutes]
      cases hafter : (h.handleConnection conn).1 with
      | mk routes =>
        rw [hafter] at hroutes
        cases h with
        | mk routes0 =>
          simp only at hroutes
          rw [hroutes]

/-- C16 amended, at the table of main, whose handler registers nothing, and at
the table whose handler registers /new: the first is unchanged by the run for
GET /, the second has the route /new added behind the route /. -/
theorem c16_table_changes_only_by_registrations_witness :
    (mainHandler.closures.handleConnection (connOf [bytes "GET / HTTP/1.1\r\n\r\n"])).1.routes.map
      (fun r => r.Pattern) = [bytes "/"] ∧
    ∃ route, registeringTable.routes[0]? = some route ∧
      (registeringTable.handleConnection (connOf [bytes "GET / HTTP/1.1\r\n\r\n"])).1.routes
        = registeringTable.routes ++
          registeredRoutes (route.Handler.act
            (parseRequest (connOf [bytes "GET / HTTP/1.1\r\n\r\n"])).2.1.rd).2 :=
  ⟨by
    rw [(c16_table_changes_only_by_registrations mainHandler.closures
      (connOf [bytes "GET / HTTP/1.1\r\n\r\n"])).2.2.2.2.1 (fun r hr c => by
        have hr2 : r = ClosureRoute.mk (bytes "/")
            (Closure.plain (fun conn => conn.Write helloResponse)) := by
          simpa [mainHandler, TCPHandler.closures, TCPHandler.HandleFunc, NewTCPHandler] using hr
        rw [hr2]
        rfl)]
    decide,
   (c16_table_changes_only_by_registrations registeringTable
      (connOf [bytes "GET / HTTP/1.1\r\n\r\n"])).2.2.1 0 (by decide)⟩

/-- C18, the claim as stated fails: the request announces 5 bytes and the one
body read returns the 3 bytes hel without error; the request is dispatched,
but the parsed body is the whole buffer of 5 bytes, hel and two zero bytes,
not the 3 bytes read. -/
theorem c18_short_read_body_is_zero_padded :
    (mainHandler.handleConnection
        (connOf [bytes "POST / HTTP/1.1\r\nContent-Length: 5\r\n\r\nhel"])).trace =
      [Event.readString (bytes "POST / HTTP/1.1\r\n") none,
       Event.readString (bytes "Content-Length: 5\r\n") none, Event.readString CRLF none,
       Event.read 5 (bytes "hel") none, Event.call 0, Event.close] ∧
    (mainHandler.handleConnection
        (connOf [bytes "POST / HTTP/1.1\r\nContent-Length: 5\r\n\r\nhel"])).request =
      some { method := bytes "POST", path := bytes "/",
             headers := [(bytes "Content-Length", bytes "5")],
             body := bytes "hel" ++ [0, 0] } ∧
    (bytes "hel" ++ [0, 0] : Str).length = 5 ∧ (bytes "hel").length = 3 := by
  decide

/-- C18, amended: when the header map gives the body length n and the one body
read returns data without error, of n bytes or fewer, the run holds that one
Read of the reader and no other, the request reaches the route loop, and the
parsed body is the buffer of n bytes: the bytes read followed by zero bytes
up to the length n. -/
theorem c18_one_read_body_is_the_buffer (h : TCPHandler) (conn : Conn)
    (requestLine method path version : Str) (reader reader1 : Reader) (n : Nat) (data : Str)
    (hread : (NewReader conn).ReadString LF = (requestLine, none, reader))
    (hfields : Fields requestLine = [method, path, version])
    (hlen : contentLength (readHeaders reader).2.1 = some (n : Int))
    (hn : n ≤ maxAlloc)
    (hbody : (readHeaders reader).1.Read n = (data, none, reader1)) :
    (h.handleConnection conn).trace.filter Event.isRead = [Event.read n data none] ∧
    (h.handleConnection conn).request
      = some { method := method, path := path, headers := (readHeaders reader).2.1,
               body := data ++ List.replicate (n - data.length) 0 } ∧
    (data ++ List.replicate (n - data.length) 0).length = n ∧ data.length ≤ n ∧
    ((h.handleConnection conn).exit = Exit.notFound ∨
      ∃ i, (h.handleConnection conn).exit = Exit.handled i) := by
  obtain ⟨-, h2, -⟩ := ReadString_spec hread rfl
  obtain ⟨ls, last, e, g1, -, -, -, -, -, g7, -⟩ := readHeaders_spec reader h2
  obtain ⟨-, k2, -⟩ := readerRead_spec hbody g7
  have hm : make (n : Int) = some (List.replicate n 0) := by
    unfold make
    rw [if_neg]
    · simp
    · simp only [not_or, not_lt]
      exact ⟨Int.natCast_nonneg n, by exact_mod_cast hn⟩
  have hb : readBody method path (readHeaders reader).2.1 (readHeaders reader).1 =
      (Parse.ok { method := method, path := path, headers := (readHeaders reader).2.1,
                  body := data ++ List.replicate (n - data.length) 0 },
       reader1, [Event.read n data none]) := by
    unfold readBody
    rw [hlen]
    simp only
    rw [hm]
    simp only [List.length_replicate]
    rw [hbody]
    simp
  have hp : parseRequest conn =
      (Parse.ok { method := method, path := path, headers := (readHeaders reader).2.1,
                  body := data ++ List.replicate (n - data.length) 0 },
       reader1,
       Event.readString requestLine none ::
         ((readHeaders reader).2.2 ++ [Event.read n data none])) := by
    unfold parseRequest
    rw [hread]
    simp only
    rw [hfields]
    simp only
    rw [hb]
  have hrd : ((readHeaders reader).2.2).filter Event.isRead = [] := by
    rw [g1]; simp [List.filter_append, filter_lineReads_isRead, List.filter_cons, Event.isRead]
  refine ⟨?_, ?_, by simp; omega, k2, ?_⟩
  · cases hr : findRoute h.routes 0 path <;>
      simp [TCPHandler.handleConnection, hp, hr, List.filter_cons, List.filter_append,
        Event.isRead, hrd]
  · cases hr : findRoute h.routes 0 path <;> simp [TCPHandler.handleConnection, hp, hr]
  · cases hr : findRoute h.routes 0 path <;> simp [TCPHandler.handleConnection, hp, hr]

/-- C18 amended, at a request that announces 5 bytes of which 3 arrive with the
header block: the hypotheses hold there, and the run holds the one read of 5
bytes that returned 3. -/
theorem c18_one_read_body_is_the_buffer_witness :
    (readHeaders { buf := bytes "Content-Length: 5\r\n\r\nhel", err := none,
                   rd := connOf [] }).1.Read 5
      = (bytes "hel", none, { buf := [], err := none, rd := connOf [] }) ∧
    (mainHandler.handleConnection
        (connOf [bytes "POST / HTTP/1.1\r\nContent-Length: 5\r\n\r\nhel"])).trace.filter
      Event.isRead = [Event.read 5 (bytes "hel") none] :=
  ⟨by decide,
   (c18_one_read_body_is_the_buffer mainHandler
      (connOf [bytes "POST / HTTP/1.1\r\nContent-Length: 5\r\n\r\nhel"])
      (bytes "POST / HTTP/1.1\r\n") (bytes "POST") (bytes "/") (bytes "HTTP/1.1")
      { buf := bytes "Content-Length: 5\r\n\r\nhel", err := none, rd := connOf [] }
      { buf := [], err := none, rd := connOf [] } 5 (bytes "hel")
      (by decide) (by decide) (by decide) (by decide) (by decide)).1⟩

/-- C19: when the stream holds no line feed before it ends or fails, the read
of the request line returns an error and handleConnection ends there: the run
is that one read and the close, no handler is called and nothing is written;
so for the empty stream, and for the text GET / HTTP/1.1 without a line end,
which has three fields and the registered path /. -/
theorem c19_unterminated_request_line_is_silent (h : TCPHandler) (conn : Conn)
    (hno : LF ∉ conn.chunks.flatten) :
    (∃ line e, (h.handleConnection conn).exit = Exit.aborted (Parse.readError e) ∧
      (h.handleConnection conn).trace = [Event.readString line (some e), Event.close]) ∧
    (h.handleConnection conn).trace.filter Event.isCall = [] ∧
    (h.handleConnection conn).trace.filter Event.isWrite = [] ∧
    (h.handleConnection conn).conn.written = conn.written ∧
    (h.handleConnection conn).conn.closed = conn.closed + 1 ∧
    (h.handleConnection conn).request = none ∧
    Fields (bytes "GET / HTTP/1.1") = [bytes "GET", bytes "/", bytes "HTTP/1.1"] ∧
    (∃ x, findRoute mainHandler.routes 0 (bytes "/") = some x) ∧
    (mainHandler.handleConnection (connOf [bytes "GET / HTTP/1.1"])).trace
      = [Event.readString (bytes "GET / HTTP/1.1") (some Error.EOF), Event.close] ∧
    (mainHandler.handleConnection (connOf [bytes "GET / HTTP/1.1"])).conn.written = [] ∧
    (mainHandler.handleConnection (connOf [])).trace
      = [Event.readString [] (some Error.EOF), Event.close] := by
  obtain ⟨line, e, b1, hr, -, h6, h7⟩ :=
    ReadString_no_delim (NewReader conn) LF rfl (by simpa [NewReader, Reader.remaining] using hno)
  have hp : parseRequest conn =
      (Parse.readError e, b1, [Event.readString line (some e)]) := by
    unfold parseRequest
    rw [hr]
  have hrun : h.handleConnection conn =
      { exit := Exit.aborted (Parse.readError e), request := none,
        trace := [Event.readString line (some e)] ++ [Event.close], conn := b1.rd.Close } := by
    simp [TCPHandler.handleConnection, hp]
  rw [hrun]
  refine ⟨⟨line, e, rfl, rfl⟩, by simp [List.filter_cons, Event.isCall],
    by simp [List.filter_cons, Event.isWrite], ?_, ?_, rfl, by decide, ⟨_, rfl⟩, by decide,
    by decide, by decide⟩
  · simpa [Conn.Close, NewReader] using h6
  · simpa [Conn.Close, NewReader] using h7

/-- C19 at the text GET / HTTP/1.1 cut in two segments and not ended by a line
feed: the hypothesis holds there and nothing is written. -/
theorem c19_unterminated_request_line_is_silent_witness :
    LF ∉ (connOf [bytes "GET / ", bytes "HTTP/1.1"]).chunks.flatten ∧
    (mainHandler.handleConnection (connOf [bytes "GET / ", bytes "HTTP/1.1"])).conn.written = [] :=
  ⟨by decide,
   (c19_unterminated_request_line_is_silent mainHandler
      (connOf [bytes "GET / ", bytes "HTTP/1.1"]) (by decide)).2.2.2.1⟩

/-- C20, the claim as stated fails: the last header line, Host: x, is cut off
by the end of the stream and is dropped, but the complete lines before it hold
Content-Length 5, so the body read is made, finds nothing and fails: the
request is not dispatched although its path is registered. -/
theorem c20_cut_off_line_after_content_length :
    (mainHandler.handleConnection
        (connOf [bytes "GET / HTTP/1.1\r\nContent-Length: 5\r\nHost: x"])).trace =
      [Event.readString (bytes "GET / HTTP/1.1\r\n") none,
       Event.readString (bytes "Content-Length: 5\r\n") none,
       Event.readString (bytes "Host: x") (some Error.EOF),
       Event.read 5 [] (some Error.EOF), Event.close] ∧
    (mainHandler.handleConnection
        (connOf [bytes "GET / HTTP/1.1\r\nContent-Length: 5\r\nHost: x"])).exit =
      Exit.aborted (Parse.bodyError Error.EOF) ∧
    (mainHandler.handleConnection
        (connOf [bytes "GET / HTTP/1.1\r\nContent-Length: 5\r\nHost: x"])).trace.filter
      Event.isCall = [] := by
  decide

/-- C20, amended: when the header loop is ended by a read error, with the text
last read before the error, that text holds no line feed and gives no entry:
the map is the one built from the complete lines ls read before it; when
that map asks for no body, no Read of the reader is made and the request
reaches the route loop with the empty body, and so does it when the map asks
for 0 bytes; so a cut-off Content-Length: 5 after a Host line leaves the Host
entry alone and the request is dispatched. -/
theorem c20_cut_off_header_line_is_dropped (h : TCPHandler) (conn : Conn)
    (requestLine method path version : Str) (reader : Reader) (ls : List Str) (last : Str)
    (e : Error)
    (hread : (NewReader conn).ReadString LF = (requestLine, none, reader))
    (hfields : Fields requestLine = [method, path, version])
    (hrun : (readHeaders reader).2.2 = lineReads ls ++ [Event.readString last (some e)]) :
    LF ∉ last ∧
    (readHeaders reader).2.1 = ls.foldl addHeader [] ∧
    (contentLength (ls.foldl addHeader []) = none →
      (h.handleConnection conn).trace.filter Event.isRead = []) ∧
    ((contentLength (ls.foldl addHeader []) = none ∨
        contentLength (ls.foldl addHeader []) = some 0) →
      (h.handleConnection conn).request
        = some { method := method, path := path, headers := ls.foldl addHeader [], body := [] } ∧
      ((h.handleConnection conn).exit = Exit.notFound ∨
        ∃ i, (h.handleConnection conn).exit = Exit.handled i)) ∧
    (mainHandler.handleConnection
        (connOf [bytes "GET / HTTP/1.1\r\nHost: x\r\nContent-Length: 5"])).request
      = some { method := bytes "GET", path := bytes "/",
               headers := [(bytes "Host", bytes "x")], body := [] } ∧
    (mainHandler.handleConnection
        (connOf [bytes "GET / HTTP/1.1\r\nHost: x\r\nContent-Length: 5"])).trace
      = [Event.readString (bytes "GET / HTTP/1.1\r\n") none,
         Event.readString (bytes "Host: x\r\n") none,
         Event.readString (bytes "Content-Length: 5") (some Error.EOF),
         Event.call 0, Event.close] := by
  obtain ⟨-, h2, -⟩ := ReadString_spec hread rfl
  obtain ⟨ls2, last2, e2, g1, g2, -, -, -, g6, -⟩ := readHeaders_spec reader h2
  rw [hrun] at g1
  obtain ⟨hls, hev⟩ := lineReads_append_inj g1
  simp only [Event.readString.injEq] at hev
  obtain ⟨hlast, he⟩ := hev
  subst hls hlast he
  refine ⟨(g6 (by simp)).1, g2, ?_, ?_, by decide, by decide⟩
  · intro hcl
    rw [← g2] at hcl
    exact (dispatched_without_body h conn requestLine method path version reader hread hfields
      (Or.inl hcl)).2.2.2 hcl
  · intro hcl
    rw [← g2] at hcl ⊢
    obtain ⟨d1, d2, -⟩ := dispatched_without_body h conn requestLine method path version reader
      hread hfields hcl
    exact ⟨d1, d2⟩

/-- C20 amended, at a request whose last header line, Content-Length: 5, is cut
off after a Host line: the hypotheses hold there, the map has the Host entry
only and no Read of the reader is made. -/
theorem c20_cut_off_header_line_is_dropped_witness :
    (readHeaders { buf := bytes "Host: x\r\nContent-Length: 5", err := none,
                   rd := connOf [] }).2.2
      = lineReads [bytes "Host: x\r\n"]
          ++ [Event.readString (bytes "Content-Length: 5") (some Error.EOF)] ∧
    (readHeaders { buf := bytes "Host: x\r\nContent-Length: 5", err := none,
                   rd := connOf [] }).2.1 = [(bytes "Host", bytes "x")] ∧
    (mainHandler.handleConnection
        (connOf [bytes "GET / HTTP/1.1\r\nHost: x\r\nContent-Length: 5"])).trace.filter
      Event.isRead = [] :=
  ⟨by decide, by decide,
   (c20_cut_off_header_line_is_dropped mainHandler
      (connOf [bytes "GET / HTTP/1.1\r\nHost: x\r\nContent-Length: 5"])
      (bytes "GET / HTTP/1.1\r\n") (bytes "GET") (bytes "/") (bytes "HTTP/1.1")
      { buf := bytes "Host: x\r\nContent-Length: 5", err := none, rd := connOf [] }
      [bytes "Host: x\r\n"] (bytes "Content-Length: 5") Error.EOF
      (by decide) (by decide) (by decide)).2.2.1 (by decide)⟩

end SimpleHttpServer
